import Mathlib

/-!
# sumup-cli: the interactive merchant / organization picker

A shallow embedding of `internal/commands/context/context.go`: the picker model, its
helpers (`clearSearch`, `pushLevel`, `popLevel`, `drillDownIntoOrg`) and the event
handler `Update`, followed by the properties proved about them.

The text-input widget (`github.com/charmbracelet/bubbles/textinput`) and the event loop
(`github.com/charmbracelet/bubbletea`) are external libraries.  The widget is taken as a
parameter (`TextInput`): every general theorem holds for every widget.  Commands are data
(`Cmd`): a command describes the background work the handler asked for.

The file also embeds the renderer `View`, the caller `setContext` together with
`internal/config` (over the `os` and `json` calls it makes, taken as a parameter `Host`),
and `internal/currency` (over the decimal library, taken as a parameter `DecimalLib`).
-/

namespace SumupCli

/-! ## Data model -/

/-- Value stored under a key of `Resource.Attributes` (`map[string]any` in the source):
a string, or a value of some other dynamic type. -/
inductive AttrValue where
  | str (s : String)
  | other (tag : Nat)
  deriving DecidableEq, Repr

/-- The resource a membership gives access to (`memberships.MembershipResource`). -/
structure Resource where
  ID : String
  /-- Field `Type` of the source, a `memberships.ResourceType` (a string type). -/
  Type_ : String
  Name : String
  Attributes : List (String × AttrValue)
  deriving DecidableEq, Repr

/-- One row returned by the memberships API (`memberships.Membership`); only the resource
is read by the picker. -/
structure Membership where
  Resource : Resource
  deriving DecidableEq, Repr

/-- Messages delivered to `Update` (`tea.Msg`).  `KeyMsg k` carries `msg.String()`;
`otherMsg` stands for every message of another dynamic type (cursor blink, window size). -/
inductive Msg where
  | searchResultMsg (memberships : List Membership) (err : Option String)
  | searchDebounceMsg
  | KeyMsg (key : String)
  | otherMsg (tag : Nat)
  deriving DecidableEq, Repr

/-- Commands returned by `Update` (`tea.Cmd`).
* `nil`: no command;
* `Quit`: `tea.Quit`;
* `searchMemberships q pid pt`: the closure built by `m.searchMemberships(q, pid, pt)`;
* `widget c`: a non-nil command handed back by the text input;
* `batchDebounce c`: `tea.Batch(cmd, debounce())` where `cmd` is the text input's command
  (`none` when it is nil). -/
inductive Cmd where
  | nil
  | Quit
  | searchMemberships (query parentID parentType : String)
  | widget (c : Nat)
  | batchDebounce (c : Option Nat)
  deriving DecidableEq, Repr

/-- A command returned by the text input, as a `tea.Cmd`. -/
def Cmd.ofWidget : Option Nat → Cmd
  | none => Cmd.nil
  | some c => Cmd.widget c

/-- The operations of `textinput.Model` used by the picker. -/
structure TextInput (TI : Type) where
  Value : TI → String
  SetValue : TI → String → TI
  Focus : TI → TI × Option Nat
  Blur : TI → TI
  Update : TI → Msg → TI × Option Nat

structure navigationLevel where
  memberships : List Membership
  parentID : String
  parentType : String
  parentName : String
  deriving DecidableEq, Repr

/-- The picker state (`type model struct`); `ctx` and `client` carry no picker state and
are left out. -/
structure model (TI : Type) where
  err : Option String
  navigationStack : List navigationLevel
  currentLevel : navigationLevel
  displayed : List Membership
  cursor : Int
  searchInput : TI
  searching : Bool
  selected : Option Membership
  loading : Bool
  lastSearchQuery : String
  searchPending : Bool

/-! ## Helpers -/

/-- White space in the sense of Go's `unicode.IsSpace`. -/
def isSpace (c : Char) : Bool :=
  let n := c.toNat
  n == 0x09 || n == 0x0A || n == 0x0B || n == 0x0C || n == 0x0D || n == 0x20 ||
  n == 0x85 || n == 0xA0 || n == 0x1680 || (0x2000 ≤ n && n ≤ 0x200A) ||
  n == 0x2028 || n == 0x2029 || n == 0x202F || n == 0x205F || n == 0x3000

/-- `strings.TrimSpace`: drop leading and trailing white space. -/
def TrimSpace (s : String) : String :=
  String.mk ((s.data.dropWhile isSpace).reverse.dropWhile isSpace).reverse

/-- Slice indexing `xs[i]` with an `int` index: `none` is the run-time panic
(index out of range). -/
def index {α : Type} (xs : List α) (i : Int) : Option α :=
  if i < 0 then none else xs[i.toNat]?

variable {TI : Type}

/-- `clearSearch` exits search mode and restores the current level's items. -/
def clearSearch (W : TextInput TI) (m : model TI) : model TI :=
  { m with
    searching := false
    searchInput := W.SetValue m.searchInput ""
    displayed := m.currentLevel.memberships
    lastSearchQuery := ""
    cursor := 0 }

/-- `pushLevel` saves the current level to the stack and sets a new current level. -/
def pushLevel (m : model TI) (newLevel : navigationLevel) : model TI :=
  { m with
    navigationStack := m.navigationStack ++ [m.currentLevel]
    currentLevel := newLevel
    displayed := newLevel.memberships
    cursor := 0 }

/-- `popLevel` returns to the previous navigation level. -/
def popLevel (m : model TI) : model TI :=
  match m.navigationStack.getLast? with
  | none => m
  | some previousLevel =>
    { m with
      navigationStack := m.navigationStack.dropLast
      currentLevel := previousLevel
      displayed := previousLevel.memberships
      cursor := 0 }

/-- `drillDownIntoOrg` navigates into an organization to view its child merchants. -/
def drillDownIntoOrg (m : model TI) (orgID orgName : String) : model TI × Cmd :=
  let parentType := "organization"
  let newLevel : navigationLevel :=
    { memberships := [], parentID := orgID, parentType := parentType, parentName := orgName }
  let m := pushLevel m newLevel
  let m := { m with loading := true }
  (m, Cmd.searchMemberships "" orgID parentType)

/-- The tail of `Update` (after the `switch`): in search mode the message is forwarded to
the text input, and a changed value arms the debounce timer. -/
def forwardToInput (W : TextInput TI) (m : model TI) (msg : Msg) : model TI × Cmd :=
  if m.searching then
    let oldValue := W.Value m.searchInput
    let r := W.Update m.searchInput msg
    let m := { m with searchInput := r.1 }
    let newValue := W.Value m.searchInput
    if oldValue ≠ newValue then
      ({ m with searchPending := true, cursor := 0 }, Cmd.batchDebounce r.2)
    else
      (m, Cmd.ofWidget r.2)
  else
    (m, Cmd.nil)

/-- `model.Update`: handle one message.  The result is `none` exactly where the source
panics (indexing `displayed` with a negative cursor). -/
def Update (W : TextInput TI) (m : model TI) (msg : Msg) : Option (model TI × Cmd) :=
  match msg with
  | Msg.searchResultMsg memberships err =>
    let m := { m with loading := false }
    match err with
    | some e => some ({ m with err := some e }, Cmd.nil)
    | none =>
      let m := { m with
        currentLevel := { m.currentLevel with memberships := memberships }
        displayed := memberships }
      if m.cursor ≥ (m.displayed.length : Int) then
        some ({ m with cursor := max 0 ((m.displayed.length : Int) - 1) }, Cmd.nil)
      else
        some (m, Cmd.nil)
  | Msg.searchDebounceMsg =>
    if !m.searchPending then
      some (m, Cmd.nil)
    else
      let m := { m with searchPending := false }
      let query := TrimSpace (W.Value m.searchInput)
      if query = m.lastSearchQuery then
        some (m, Cmd.nil)
      else
        let m := { m with lastSearchQuery := query, loading := true }
        some (m, Cmd.searchMemberships query m.currentLevel.parentID m.currentLevel.parentType)
  | Msg.KeyMsg key =>
    if key = "ctrl+c" ∨ key = "q" then
      some (m, Cmd.Quit)
    else if key = "esc" then
      if m.searching then
        some (clearSearch W m, Cmd.nil)
      else if m.navigationStack.length > 0 then
        some (popLevel m, Cmd.nil)
      else
        some (m, Cmd.nil)
    else if key = "/" then
      if !m.searching then
        let r := W.Focus m.searchInput
        some ({ m with searching := true, searchInput := r.1 }, Cmd.ofWidget r.2)
      else
        some (forwardToInput W m msg)
    else if key = "enter" then
      if m.searching then
        some ({ m with searching := false, searchInput := W.Blur m.searchInput }, Cmd.nil)
      else if m.displayed.length > 0 ∧ m.cursor < (m.displayed.length : Int) then
        match index m.displayed m.cursor with
        | none => none
        | some selectedMembership =>
          if selectedMembership.Resource.Type_ = "organization" then
            some (drillDownIntoOrg m selectedMembership.Resource.ID
              selectedMembership.Resource.Name)
          else
            some ({ m with selected := some selectedMembership }, Cmd.Quit)
      else
        some (forwardToInput W m msg)
    else if key = "up" ∨ key = "k" then
      if !m.searching then
        if m.cursor > 0 then
          some (forwardToInput W { m with cursor := m.cursor - 1 } msg)
        else
          some (forwardToInput W m msg)
      else
        some (forwardToInput W m msg)
    else if key = "down" ∨ key = "j" then
      if !m.searching then
        if m.cursor < (m.displayed.length : Int) - 1 then
          some (forwardToInput W { m with cursor := m.cursor + 1 } msg)
        else
          some (forwardToInput W m msg)
      else
        some (forwardToInput W m msg)
    else
      some (forwardToInput W m msg)
  | Msg.otherMsg _ => some (forwardToInput W m msg)

/-- The model `setContext` starts the program with: the root list already fetched, an
empty navigation stack and a fresh text input. -/
def initialModel (searchInput : TI) (items : List Membership) : model TI :=
  { err := none
    navigationStack := []
    currentLevel := { memberships := items, parentID := "", parentType := "", parentName := "" }
    displayed := items
    cursor := 0
    searchInput := searchInput
    searching := false
    selected := none
    loading := false
    lastSearchQuery := ""
    searchPending := false }

/-- Handle a sequence of messages in arrival order, collecting the commands returned. -/
def runAll (W : TextInput TI) : model TI → List Msg → Option (model TI × List Cmd)
  | m, [] => some (m, [])
  | m, msg :: rest =>
    match Update W m msg with
    | none => none
    | some (m1, c) =>
      match runAll W m1 rest with
      | none => none
      | some (m2, cs) => some (m2, c :: cs)

/-- States the picker can be in after finitely many messages, started on a root list. -/
inductive Reachable (W : TextInput TI) (searchInput : TI) (items : List Membership) :
    model TI → Prop where
  | init : Reachable W searchInput items (initialModel searchInput items)
  | step {m m1 : model TI} {c : Cmd} (msg : Msg) :
      Reachable W searchInput items m → Update W m msg = some (m1, c) →
      Reachable W searchInput items m1

/-- A command that fetches memberships. -/
def Cmd.isFetch : Cmd → Bool
  | Cmd.searchMemberships _ _ _ => true
  | _ => false

/-- Number of fetches among a list of commands. -/
def fetchCount (cs : List Cmd) : Nat := (cs.filter Cmd.isFetch).length

/-! ## A concrete text input, for evaluating the picker on concrete inputs -/

/-- A text input reduced to its value and its focus flag, with the cursor at the end. -/
structure LineInput where
  value : String
  focus : Bool
  deriving DecidableEq, Repr

/-- Key handling of `LineInput`: a focused input appends a one-character key, removes the
last character on backspace, and ignores everything else; `Focus` returns the blink
command (`some 0`). -/
def lineInput : TextInput LineInput where
  Value t := t.value
  SetValue t s := { t with value := s }
  Focus t := ({ t with focus := true }, some 0)
  Blur t := { t with focus := false }
  Update t msg :=
    match msg with
    | Msg.KeyMsg key =>
      if t.focus then
        if key = "backspace" then ({ t with value := String.mk t.value.data.dropLast }, none)
        else if key.data.length = 1 then ({ t with value := t.value ++ key }, none)
        else (t, none)
      else (t, none)
    | _ => (t, none)

/-- An organization row and two merchant rows used in the concrete instances. -/
def org1 : Membership := ⟨⟨"org1", "organization", "Acme", []⟩⟩

def m1 : Membership := ⟨⟨"m1", "merchant", "Acme Shop", []⟩⟩

def m2 : Membership := ⟨⟨"m2", "merchant", "Acme Shop EU", []⟩⟩

/-- A fresh, unfocused text input. -/
def emptyInput : LineInput := ⟨"", false⟩

/-- The picker started on the root list `[org1, m1]`. -/
def rootModel : model LineInput := initialModel emptyInput [org1, m1]

/-- The picker started on `[org1, m1]` after one `down` key: the cursor is on `m1`. -/
def atMerchant : model LineInput := { rootModel with cursor := 1 }

/-- Keys that `Update` hands to the text input in search mode: every key except the quit
keys, escape and enter. -/
def forwardedKey (key : String) : Bool :=
  key != "ctrl+c" && key != "q" && key != "esc" && key != "enter"

/-- The text input after a sequence of key presses. -/
def inputAfter (W : TextInput TI) : TI → List String → TI
  | t, [] => t
  | t, key :: rest => inputAfter W (W.Update t (Msg.KeyMsg key)).1 rest

/-- Query-changing keystrokes: each key is forwarded to the text input and changes its
value. -/
def queryChanging (W : TextInput TI) : TI → List String → Bool
  | _, [] => true
  | t, key :: rest =>
    forwardedKey key &&
    (W.Value t != W.Value (W.Update t (Msg.KeyMsg key)).1) &&
    queryChanging W (W.Update t (Msg.KeyMsg key)).1 rest

/-- The picker started on `[org1, m1]` after the `/` key: search mode, input focused. -/
def searchingModel : model LineInput :=
  { rootModel with searching := true, searchInput := ⟨"", true⟩ }

/-- Search mode with the text `abc` typed and already sent, and a debounce timer pending. -/
def sentModel : model LineInput :=
  { searchingModel with
    searchInput := ⟨"abc", true⟩, lastSearchQuery := "abc", searchPending := true }

/-- The root list `[org1, m1]` with a fatal error stored: the state after drilling into
`org1`, a failed fetch completion and escape. -/
def errRoot : model LineInput := { rootModel with err := some "boom" }

/-- The picker started on two merchants. -/
def twoMerchants : model LineInput := initialModel emptyInput [m1, m2]

/-- The picker started on a list whose second row is the organization. -/
def orgSecond : model LineInput := initialModel emptyInput [m1, org1]

/-- The picker after drilling into `org1` from the root list, before any fetch
completion: an empty list is on display. -/
def drilled : model LineInput := (drillDownIntoOrg rootModel "org1" "Acme").1

/-- The list `[m1, org1]` with the cursor on the organization. -/
def atOrg : model LineInput := { orgSecond with cursor := 1 }

/-- Search mode with the text `abc` typed, nothing sent yet and a debounce timer pending. -/
def typedModel : model LineInput :=
  { searchingModel with searchInput := ⟨"abc", true⟩, searchPending := true }

/-- Shape of the navigation path: with an empty stack the current level is the root
(empty `parentID` and `parentType`); otherwise the bottom stack entry is the root, and
every other stack entry and the current level have `parentType` `organization`. -/
def StackShape (m : model TI) : Prop :=
  match m.navigationStack with
  | [] => m.currentLevel.parentID = "" ∧ m.currentLevel.parentType = ""
  | bottom :: rest =>
    bottom.parentID = "" ∧ bottom.parentType = "" ∧
    (∀ l ∈ rest, l.parentType = "organization") ∧
    m.currentLevel.parentType = "organization"

/-- A fetch in flight: the arguments `searchMemberships` was called with. -/
structure Fetch where
  query : String
  parentID : String
  parentType : String
  deriving DecidableEq, Repr

/-- The fetch a command starts, if it starts one. -/
def Cmd.fetches : Cmd → List Fetch
  | Cmd.searchMemberships query parentID parentType => [⟨query, parentID, parentType⟩]
  | _ => []

/-- Events of the event loop: a message that is not a fetch completion (key press,
debounce firing, other), or the completion of the `i`-th outstanding fetch with a result
or an error. -/
inductive Event where
  | input (msg : Msg)
  | completion (i : Nat) (memberships : List Membership) (err : Option String)

/-- The picker state together with the fetches issued and not yet completed.  The second
component is bookkeeping about the run; the source keeps no such record. -/
structure Engine (TI : Type) where
  m : model TI
  outstanding : List Fetch

/-- One event: `Update` handles the message, a fetch command joins the outstanding
fetches, a completion removes the fetch it answers.  `none` when `Update` panics or the
event cannot occur (a completion with no such outstanding fetch, a fetch completion passed
as plain input). -/
def Engine.step (W : TextInput TI) (s : Engine TI) : Event → Option (Engine TI)
  | Event.input msg =>
    match msg with
    | Msg.searchResultMsg _ _ => none
    | _ =>
      match Update W s.m msg with
      | none => none
      | some (m1, c) => some ⟨m1, s.outstanding ++ c.fetches⟩
  | Event.completion i memberships err =>
    if i < s.outstanding.length then
      match Update W s.m (Msg.searchResultMsg memberships err) with
      | none => none
      | some (m1, c) => some ⟨m1, s.outstanding.eraseIdx i ++ c.fetches⟩
    else none

/-- A sequence of events, in arrival order. -/
def Engine.run (W : TextInput TI) : Engine TI → List Event → Option (Engine TI)
  | s, [] => some s
  | s, ev :: rest =>
    match Engine.step W s ev with
    | none => none
    | some s1 => Engine.run W s1 rest

/-! ## The renderer (`model.View`) -/

/-- What `View` takes from outside the repository: the four `lipgloss` styles it builds
(each used only through `Render`) and the text input's own `View`. -/
structure Renderer (TI : Type) where
  titleStyle : String → String
  selectedStyle : String → String
  orgStyle : String → String
  helpStyle : String → String
  inputView : TI → String

/-- The rows shown, as `(start, end)`: the window computation of `View`, with
`maxVisible = 10`, for a list of `n` items. -/
def window (n : Nat) (cursor : Int) : Int × Int :=
  let maxVisible : Int := 10
  if (n : Int) > maxVisible then
    let start := if cursor ≥ maxVisible / 2 then cursor - maxVisible / 2 else 0
    let end_ := start + maxVisible
    if end_ > (n : Int) then (max 0 ((n : Int) - maxVisible), (n : Int)) else (start, end_)
  else
    (0, (n : Int))

/-- The merchant code shown for a row: the string under `merchant_code` in the resource
attributes, `-` when there is none. -/
def merchantCode (r : Resource) : String :=
  match r.Attributes.lookup "merchant_code" with
  | some (AttrValue.str codeVal) => codeVal
  | _ => "-"

/-- One row of the list: the body of the `for` loop of `View`, without the newline. -/
def renderRow (R : Renderer TI) (cursor i : Int) (membership : Membership) : String :=
  let mark := if i = cursor then ">" else " "
  let line :=
    if membership.Resource.Type_ = "organization" then
      let line :=
        mark ++ " Organization: " ++ membership.Resource.Name ++ " (" ++
          membership.Resource.ID ++ ")"
      if i ≠ cursor then R.orgStyle line else line
    else
      mark ++ " " ++ membership.Resource.Name ++ " (" ++ merchantCode membership.Resource ++ ")"
  if i = cursor then R.selectedStyle line else line

/-- The `for i := start; i < end; i++` loop of `View`, run for `count` rows from `i`;
`none` is the panic of `items[i]`. -/
def renderRows (R : Renderer TI) (cursor : Int) (items : List Membership) :
    Int → Nat → Option String
  | _, 0 => some ""
  | i, count + 1 =>
    match index items i with
    | none => none
    | some membership =>
      match renderRows R cursor items (i + 1) count with
      | none => none
      | some rest => some (renderRow R cursor i membership ++ "\n" ++ rest)

/-- The title line of `View`, with the breadcrumb inside an organization. -/
def viewTitle (R : Renderer TI) (m : model TI) : String :=
  if m.currentLevel.parentName ≠ "" then
    R.titleStyle ("Select a merchant from: " ++ m.currentLevel.parentName)
  else
    R.titleStyle "Select a merchant or organization:"

/-- The search line of `View`, present in search mode. -/
def viewSearch (R : Renderer TI) (m : model TI) : String :=
  if m.searching then
    "Search: " ++ R.inputView m.searchInput ++ (if m.loading then " (loading...)" else "") ++
      "\n\n"
  else ""

/-- The line `View` writes for an empty list. -/
def emptyLine (loading : Bool) : String :=
  if loading then "Loading..." else "No items found."

/-- The text written for a truncated list. -/
def showingText (start end_ : Int) (n : Nat) : String :=
  "(Showing " ++ toString start ++ "-" ++ toString end_ ++ " of " ++ toString n ++ ")"

/-- What `View` writes after the rows: the empty-state line, or the counts of a truncated
list. -/
def viewStatus (m : model TI) : String :=
  if m.displayed.length = 0 then
    emptyLine m.loading ++ "\n"
  else if m.displayed.length > 10 then
    "\n" ++ showingText ((window m.displayed.length m.cursor).1 + 1)
      (window m.displayed.length m.cursor).2 m.displayed.length
  else ""

/-- The help line of `View`. -/
def viewHelp (R : Renderer TI) (m : model TI) : String :=
  if m.searching then
    R.helpStyle "esc: exit search | enter: confirm | ctrl+c/q: quit"
  else
    R.helpStyle ("↑/↓ or j/k: navigate | /: search | enter: select" ++
      (if m.navigationStack.length > 0 then " | esc: back" else "") ++ " | ctrl+c/q: quit")

/-- `model.View`: the frame for a state; `none` is a panic of the row loop. -/
def View (R : Renderer TI) (m : model TI) : Option String :=
  match m.err with
  | some e => some ("Error: " ++ e ++ "\n")
  | none =>
    match renderRows R m.cursor m.displayed (window m.displayed.length m.cursor).1
        ((window m.displayed.length m.cursor).2 - (window m.displayed.length m.cursor).1).toNat
      with
    | none => none
    | some rows =>
      some (viewTitle R m ++ "\n\n" ++ viewSearch R m ++ rows ++ viewStatus m ++ "\n\n" ++
        viewHelp R m)

/-- The frame contains the text. -/
def Contains (frame text : String) : Prop := text.data <:+: frame.data

/-- Styles that render the text as it is (no colour profile), and the text input shown as
its value. -/
def plainRenderer : Renderer LineInput where
  titleStyle t := t
  selectedStyle t := t
  orgStyle t := t
  helpStyle t := t
  inputView t := t.value

/-- A root list of eleven merchants with a fatal error stored. -/
def errEleven : model LineInput :=
  { initialModel emptyInput (List.replicate 11 m1) with err := some "boom" }

/-- An organization whose name is the text of the loading line. -/
def orgLoading : Membership := ⟨⟨"org2", "organization", "Loading...", []⟩⟩

/-- Inside `orgLoading`, after its fetch completed with no items. -/
def insideEmptyOrg : model LineInput :=
  { (drillDownIntoOrg (initialModel emptyInput [orgLoading]) "org2" "Loading...").1 with
    loading := false }

/-- A root list of twelve merchants `Shop 0` to `Shop 11` with the cursor on the last one. -/
def twelveShops : model LineInput :=
  { initialModel emptyInput
      ((List.range 12).map fun i =>
        ⟨⟨"m" ++ toString i, "merchant", "Shop " ++ toString i, []⟩⟩) with
    cursor := 11 }

/-! ## The configuration file (`internal/config`) -/

/-- `config.Config`: the content of the configuration file. -/
structure Config where
  CurrentMerchantCode : String
  deriving DecidableEq, Repr

/-- What `internal/config` takes from outside the repository, over the states `FS` of the
file system: `runtime.GOOS`, `os.Getenv`, `os.UserHomeDir`, `filepath.Join`,
`filepath.Dir`, `os.ReadFile` (its error carries what `os.IsNotExist` answers),
`os.MkdirAll` and `os.WriteFile` (each gives its error, `none` for `nil`, and the state it
leaves), `json.Unmarshal` into an empty `Config`, and `json.MarshalIndent`. -/
structure Host (FS : Type) where
  GOOS : String
  Getenv : String → String
  UserHomeDir : Except String String
  Join : List String → String
  Dir : String → String
  ReadFile : FS → String → Except (Bool × String) String
  MkdirAll : FS → String → Nat → Option String × FS
  WriteFile : FS → String → String → Nat → Option String × FS
  Unmarshal : String → Except String Config
  MarshalIndent : Config → String → String → Except String String

/-- `configDir`: the platform-specific configuration directory. -/
def configDir {FS : Type} (O : Host FS) : Except String String :=
  if O.GOOS = "windows" then
    let baseDir := O.Getenv "APPDATA"
    if baseDir = "" then
      let baseDir := O.Getenv "USERPROFILE"
      if baseDir = "" then
        Except.error "unable to determine config directory"
      else
        Except.ok (O.Join [O.Join [baseDir, "AppData", "Roaming"], "sumup"])
    else
      Except.ok (O.Join [baseDir, "sumup"])
  else if O.GOOS = "darwin" ∨ O.GOOS = "linux" then
    let baseDir := O.Getenv "XDG_CONFIG_HOME"
    if baseDir = "" then
      match O.UserHomeDir with
      | Except.error e => Except.error ("unable to determine home directory: " ++ e)
      | Except.ok home => Except.ok (O.Join [O.Join [home, ".config"], "sumup"])
    else
      Except.ok (O.Join [baseDir, "sumup"])
  else
    Except.error ("unsupported platform: " ++ O.GOOS)

/-- `configPath`: the path of the configuration file. -/
def configPath {FS : Type} (O : Host FS) : Except String String :=
  match configDir O with
  | Except.error e => Except.error e
  | Except.ok dir => Except.ok (O.Join [dir, "sumup.json"])

/-- `config.Load`: read the configuration from disk; a missing file is the empty
configuration. -/
def Load {FS : Type} (O : Host FS) (fs : FS) : Except String Config :=
  match configPath O with
  | Except.error e => Except.error e
  | Except.ok path =>
    match O.ReadFile fs path with
    | Except.error (notExist, e) =>
      if notExist then Except.ok ⟨""⟩ else Except.error ("read config file: " ++ e)
    | Except.ok data =>
      match O.Unmarshal data with
      | Except.error e => Except.error ("parse config file: " ++ e)
      | Except.ok cfg => Except.ok cfg

/-- `(*Config).Save`: write the configuration to disk; the result is the error (`none` for
`nil`) and the file system it leaves. -/
def Save {FS : Type} (O : Host FS) (c : Config) (fs : FS) : Option String × FS :=
  match configPath O with
  | Except.error e => (some e, fs)
  | Except.ok path =>
    let dir := O.Dir path
    match O.MkdirAll fs dir 0o755 with
    | (some e, fs1) => (some ("create config directory: " ++ e), fs1)
    | (none, fs1) =>
      match O.MarshalIndent c "" "  " with
      | Except.error e => (some ("marshal config: " ++ e), fs1)
      | Except.ok data =>
        match O.WriteFile fs1 path data 0o644 with
        | (some e, fs2) => (some ("write config file: " ++ e), fs2)
        | (none, fs2) => (none, fs2)

/-- `config.GetCurrentMerchantCode`: the current merchant code from the configuration. -/
def GetCurrentMerchantCode {FS : Type} (O : Host FS) (fs : FS) : Except String String :=
  match Load O fs with
  | Except.error e => Except.error e
  | Except.ok cfg => Except.ok cfg.CurrentMerchantCode

/-- `config.SetCurrentMerchantCode`: set the current merchant code in the configuration. -/
def SetCurrentMerchantCode {FS : Type} (O : Host FS) (merchantCode : String) (fs : FS) :
    Option String × FS :=
  match Load O fs with
  | Except.error e => (some e, fs)
  | Except.ok cfg => Save O { cfg with CurrentMerchantCode := merchantCode } fs

/-! ## The caller of the picker (`setContext`) -/

/-- Messages printed through `internal/display/message`. -/
inductive Message where
  | Success (text : String)
  | Warn (text : String)
  | Notify (text : String)
  deriving DecidableEq, Repr

/-- What `setContext` gets from outside: the error of `app.GetAppContext` (`none` when it
succeeds), the result of the root `Memberships.List` call, the final model `p.Run()`
returns for an initial model (or its error), and the fresh text input. -/
structure SetContextEnv (TI : Type) where
  appContext : Option String
  list : Except String (List Membership)
  run : model TI → Except String (model TI)
  newInput : TI

/-- What `setContext` shows: the error it returns (`none` for `nil`) and the messages it
prints. -/
structure SetContextResult where
  err : Option String
  messages : List Message
  deriving DecidableEq, Repr

/-- `setContext`: fetch the root list, run the picker, persist the selected merchant.  The
result comes with the file system the call leaves. -/
def setContext {FS : Type} (O : Host FS) (env : SetContextEnv TI) (fs : FS) :
    SetContextResult × FS :=
  match env.appContext with
  | some e => (⟨some e, []⟩, fs)
  | none =>
    let fetching := [Message.Notify "Fetching your memberships..."]
    match env.list with
    | Except.error e => (⟨some ("list memberships: " ++ e), fetching⟩, fs)
    | Except.ok items =>
      if items.length = 0 then
        (⟨none, fetching ++ [Message.Warn "No memberships found."]⟩, fs)
      else
        match env.run (initialModel env.newInput items) with
        | Except.error e => (⟨some ("run interactive selection: " ++ e), fetching⟩, fs)
        | Except.ok finalModel =>
          match finalModel.selected with
          | none => (⟨none, fetching ++ [Message.Warn "No merchant selected."]⟩, fs)
          | some selected =>
            if selected.Resource.Type_ = "organization" then
              (⟨none,
                fetching ++ [Message.Warn "Please select a merchant, not an organization."]⟩,
                fs)
            else
              let merchantCode := selected.Resource.ID
              if merchantCode = "" then
                (⟨some "merchant code not found in membership attributes", fetching⟩, fs)
              else
                match SetCurrentMerchantCode O merchantCode fs with
                | (some e, fs1) => (⟨some ("save merchant context: " ++ e), fetching⟩, fs1)
                | (none, fs1) =>
                  (⟨none,
                    fetching ++ [Message.Success ("Merchant context set to: " ++
                      selected.Resource.Name ++ " (" ++ merchantCode ++ ")")]⟩,
                    fs1)

/-- A merchant whose resource id is its merchant code. -/
def shop : Membership :=
  ⟨⟨"MC123", "merchant", "Shop", [("merchant_code", AttrValue.str "MC123")]⟩⟩

/-- A run of the picker on `[org1, shop]` in which the user moves down and presses enter. -/
def pickingEnv : SetContextEnv LineInput where
  appContext := none
  list := Except.ok [org1, shop]
  run m :=
    match runAll lineInput m [Msg.KeyMsg "down", Msg.KeyMsg "enter"] with
    | some (m1, _) => Except.ok m1
    | none => Except.error "index out of range"
  newInput := emptyInput

/-- The parent directory of a slash-separated path. -/
def parentDir (path : String) : String :=
  String.mk ((path.data.reverse.dropWhile fun c => c != '/').drop 1).reverse

/-- A Linux host over an in-memory file system (the list of files written, newest first):
the home directory is `/home/u`, directories need not be created, a file holds the merchant
code as it is, and writing fails with `disk full` unless the host is `writable`. -/
def memHost (writable : Bool) : Host (List (String × String)) where
  GOOS := "linux"
  Getenv _ := ""
  UserHomeDir := Except.ok "/home/u"
  Join parts := "/".intercalate parts
  Dir := parentDir
  ReadFile fs path :=
    match fs.lookup path with
    | some data => Except.ok data
    | none => Except.error (true, "no such file or directory")
  MkdirAll fs _ _ := (none, fs)
  WriteFile fs path data _ :=
    if writable then (none, (path, data) :: fs) else (some "disk full", fs)
  Unmarshal data := Except.ok ⟨data⟩
  MarshalIndent c _ _ := Except.ok c.CurrentMerchantCode

/-! ## Currencies (`internal/currency`) -/

/-- `shared.Currency`, a string type of `github.com/sumup/sumup-go/shared`. -/
abbrev Currency := String

/-- The currency constants of `github.com/sumup/sumup-go/shared` used by the tables; the
package is not part of this repository, each constant is the ISO code it is named after. -/
def CurrencyBGN : Currency := "BGN"

def CurrencyBRL : Currency := "BRL"

def CurrencyCHF : Currency := "CHF"

def CurrencyCLP : Currency := "CLP"

def CurrencyCZK : Currency := "CZK"

def CurrencyDKK : Currency := "DKK"

def CurrencyEUR : Currency := "EUR"

def CurrencyGBP : Currency := "GBP"

def CurrencyHRK : Currency := "HRK"

def CurrencyHUF : Currency := "HUF"

def CurrencyNOK : Currency := "NOK"

def CurrencyPLN : Currency := "PLN"

def CurrencyRON : Currency := "RON"

def CurrencySEK : Currency := "SEK"

def CurrencyUSD : Currency := "USD"

inductive symbolPosition where
  | positionBefore
  | positionAfter
  | positionAfterNoSpace
  deriving DecidableEq, Repr

structure currencyInfo where
  symbol : String
  decimals : Int
  position : symbolPosition
  deriving DecidableEq, Repr

/-- The formatting table used by `Format` (a map literal with distinct keys). -/
def infoByCurrency : List (Currency × currencyInfo) :=
  [ (CurrencyBGN, ⟨"лв", 2, symbolPosition.positionAfter⟩),
    (CurrencyBRL, ⟨"R$", 2, symbolPosition.positionBefore⟩),
    (CurrencyCHF, ⟨"CHF ", 2, symbolPosition.positionBefore⟩),
    (CurrencyCLP, ⟨"$", 0, symbolPosition.positionBefore⟩),
    (CurrencyCZK, ⟨"Kč", 2, symbolPosition.positionAfter⟩),
    (CurrencyDKK, ⟨"kr", 2, symbolPosition.positionAfter⟩),
    (CurrencyEUR, ⟨"€", 2, symbolPosition.positionAfterNoSpace⟩),
    (CurrencyGBP, ⟨"£", 2, symbolPosition.positionBefore⟩),
    (CurrencyHRK, ⟨"kn", 2, symbolPosition.positionAfter⟩),
    (CurrencyHUF, ⟨"Ft", 0, symbolPosition.positionAfter⟩),
    (CurrencyNOK, ⟨"kr", 2, symbolPosition.positionAfter⟩),
    (CurrencyPLN, ⟨"zł", 2, symbolPosition.positionAfter⟩),
    (CurrencyRON, ⟨"lei", 2, symbolPosition.positionAfter⟩),
    (CurrencySEK, ⟨"kr", 2, symbolPosition.positionAfter⟩),
    (CurrencyUSD, ⟨"$", 2, symbolPosition.positionBefore⟩) ]

def codeToCurrency : List (String × Currency) :=
  [ ("BGN", CurrencyBGN), ("BRL", CurrencyBRL), ("CHF", CurrencyCHF), ("CLP", CurrencyCLP),
    ("CZK", CurrencyCZK), ("DKK", CurrencyDKK), ("EUR", CurrencyEUR), ("GBP", CurrencyGBP),
    ("HRK", CurrencyHRK), ("HUF", CurrencyHUF), ("NOK", CurrencyNOK), ("PLN", CurrencyPLN),
    ("RON", CurrencyRON), ("SEK", CurrencySEK), ("USD", CurrencyUSD) ]

/-- `Supported` returns the currency codes understood by the CLI. -/
def Supported : List String :=
  ["BGN", "BRL", "CHF", "CLP", "CZK", "DKK", "EUR", "GBP", "HRK", "HUF", "NOK", "PLN", "RON",
   "SEK", "USD"]

/-- The error of `Parse`: the value as given and the supported codes it lists. -/
structure ParseError where
  value : String
  supported : List String
  deriving DecidableEq, Repr

/-- `Parse` converts a string into a SumUp currency value.  `ToUpper` is
`strings.ToUpper`, taken as a parameter. -/
def Parse (ToUpper : String → String) (value : String) : Except ParseError Currency :=
  let normalized := TrimSpace (ToUpper value)
  match codeToCurrency.lookup normalized with
  | none => Except.error ⟨value, Supported⟩
  | some currency => Except.ok currency

/-- `Code` returns the ISO code string representation of the currency. -/
def Code (currency : Currency) : String := currency

/-- The operations of `github.com/shopspring/decimal` used by `ToMinorUnits`, with the
rational number a decimal stands for (`val`). -/
structure DecimalLib (D : Type) where
  NewFromString : String → Except String D
  New : Int → Int → D
  Shift : D → Int → D
  Mul : D → D → D
  Round : D → Int → D
  IntPart : D → Int
  val : D → ℚ

/-- Round to the nearest integer, ties away from zero. -/
def roundHalfAway (q : ℚ) : Int :=
  if 0 ≤ q then ⌊q + 1 / 2⌋ else ⌈q - 1 / 2⌉

/-- The documented arithmetic of the decimal library: `New(v, e)` is `v * 10^e`, `Shift`
multiplies by a power of ten, `Mul` is exact, `Round(0)` rounds to the nearest integer with
ties away from zero, and `IntPart` of an integer that fits in an `int64` is that integer. -/
structure DecimalLib.Lawful {D : Type} (L : DecimalLib D) : Prop where
  val_New : ∀ v e : Int, L.val (L.New v e) = (v : ℚ) * (10 : ℚ) ^ e
  val_Shift : ∀ (d : D) (k : Int), L.val (L.Shift d k) = L.val d * (10 : ℚ) ^ k
  val_Mul : ∀ a b : D, L.val (L.Mul a b) = L.val a * L.val b
  val_Round : ∀ d : D, L.val (L.Round d 0) = (roundHalfAway (L.val d) : ℚ)
  IntPart_val : ∀ (d : D) (n : Int), L.val d = (n : ℚ) → -2 ^ 63 ≤ n → n < 2 ^ 63 →
    L.IntPart d = n

/-- The error of `ToMinorUnits`: the amount as given and the parser's error. -/
structure AmountError where
  amount : String
  cause : String
  deriving DecidableEq, Repr

/-- `ToMinorUnits` converts a decimal-string amount into its minor units. -/
def ToMinorUnits {D : Type} (L : DecimalLib D) (amount : String) (minorUnit : Int) :
    Except AmountError Int :=
  match L.NewFromString amount with
  | Except.error e => Except.error ⟨amount, e⟩
  | Except.ok decimalAmount =>
    let factor := L.Shift (L.New 1 0) minorUnit
    let scaled := L.Round (L.Mul decimalAmount factor) 0
    let value := L.IntPart scaled
    Except.ok value

/-- Value of a string of decimal digits. -/
def digitsValue (cs : List Char) : Option Nat :=
  cs.foldl (fun acc c => acc.bind fun n =>
    if c.isDigit then some (10 * n + (c.toNat - 48)) else none) (some 0)

/-- A decimal library over the rationals, for concrete instances: it reads an optional
minus sign, digits and at most one point. -/
def ratDecimal : DecimalLib ℚ where
  NewFromString s :=
    let negative := s.data.head? = some '-'
    let body := if negative then s.data.drop 1 else s.data
    let whole := body.takeWhile (fun c => c != '.')
    let frac := (body.dropWhile (fun c => c != '.')).drop 1
    match digitsValue (whole ++ frac) with
    | none => Except.error "not a decimal"
    | some n =>
      if whole ++ frac = [] then Except.error "not a decimal"
      else Except.ok ((if negative then -(n : ℚ) else (n : ℚ)) / (10 : ℚ) ^ frac.length)
  New v e := (v : ℚ) * (10 : ℚ) ^ e
  Shift d k := d * (10 : ℚ) ^ k
  Mul a b := a * b
  Round d places := if places = 0 then (roundHalfAway d : ℚ) else d
  IntPart d := Int.tdiv d.num d.den
  val d := d

/-- Upper-casing of the ASCII letters, for concrete instances of `Parse`. -/
def asciiUpper (s : String) : String := String.mk (s.data.map Char.toUpper)

/-- The cursor invariant of the picker state: the cursor indexes `displayed` whenever
`displayed` is non-empty, and is `0` whenever it is empty. -/
def CursorInBounds (m : model TI) : Prop :=
  (m.displayed ≠ [] → 0 ≤ m.cursor ∧ m.cursor < (m.displayed.length : Int)) ∧
  (m.displayed = [] → m.cursor = 0)

/-! ## Properties -/

section Properties

variable (W : TextInput TI)

/-! ### Fetch completions -/

/-- Result of `Update` on a fetch completion without error. -/
theorem Update_searchResult_ok (m : model TI) (xs : List Membership) :
    Update W m (Msg.searchResultMsg xs none) =
      some ({ m with
              loading := false
              currentLevel := { m.currentLevel with memberships := xs }
              displayed := xs
              cursor := if m.cursor < (xs.length : Int) then m.cursor
                        else max 0 ((xs.length : Int) - 1) }, Cmd.nil) := by
  unfold Update
  by_cases h : m.cursor < (xs.length : Int)
  · have h2 : ¬ (m.cursor ≥ (xs.length : Int)) := by omega
    simp [h, h2]
  · have h2 : m.cursor ≥ (xs.length : Int) := by omega
    simp [h, h2]

/-- Result of `Update` on a fetch completion carrying an error. -/
theorem Update_searchResult_err (m : model TI) (xs : List Membership) (e : String) :
    Update W m (Msg.searchResultMsg xs (some e)) =
      some ({ m with err := some e, loading := false }, Cmd.nil) := by
  rfl

/-- C9. Successful fetch completion: in every state and for every item list `xs`, a fetch
completion without error returns the state with `loading = false`, the current level's
items and `displayed` both equal to `xs`, the cursor kept when `cursor < len(xs)` and set
to `max(0, len(xs) - 1)` otherwise, every other field unchanged, and no command. -/
theorem searchResult_success (m : model TI) (xs : List Membership) :
    Update W m (Msg.searchResultMsg xs none) =
      some ({ m with
              loading := false
              currentLevel := { m.currentLevel with memberships := xs }
              displayed := xs
              cursor := if m.cursor < (xs.length : Int) then m.cursor
                        else max 0 ((xs.length : Int) - 1) }, Cmd.nil) :=
  Update_searchResult_ok W m xs

/-- C10. Failed fetch completion: in every state, a fetch completion carrying an error `e`
returns the state with the error field set to `e` and `loading = false`, every other field
unchanged (the item list carried by the message is ignored), and no command. -/
theorem searchResult_error (m : model TI) (xs : List Membership) (e : String) :
    Update W m (Msg.searchResultMsg xs (some e)) =
      some ({ m with err := some e, loading := false }, Cmd.nil) := by
  rfl

/-! ### The enter key -/

/-- An item found by `index` lies inside the list. -/
theorem index_some_bounds {α : Type} {xs : List α} {i : Int} {a : α}
    (h : index xs i = some a) : 0 ≤ i ∧ i < (xs.length : Int) := by
  unfold index at h
  by_cases hi : i < 0
  · simp [hi] at h
  · simp only [hi, if_false] at h
    have hlt : i.toNat < xs.length := by
      by_contra hge
      rw [List.getElem?_eq_none (by omega)] at h
      exact Option.noConfusion h
    omega

/-- Outside search mode, enter on a valid cursor dispatches on the type of the item. -/
theorem Update_enter_browsing (m : model TI) (it : Membership)
    (hs : m.searching = false) (hidx : index m.displayed m.cursor = some it) :
    Update W m (Msg.KeyMsg "enter") =
      if it.Resource.Type_ = "organization" then
        some (drillDownIntoOrg m it.Resource.ID it.Resource.Name)
      else
        some ({ m with selected := some it }, Cmd.Quit) := by
  have hb := index_some_bounds hidx
  have hlen : m.displayed.length > 0 := by omega
  have hguard : m.displayed.length > 0 ∧ m.cursor < (m.displayed.length : Int) := ⟨hlen, hb.2⟩
  unfold Update
  simp [hs, hidx, hguard]

/-- C3. Selecting a merchant: in every state outside search mode whose cursor points at an
item of `displayed` that is not an organization (in particular a record of type
`merchant`), the enter key sets `selected` to exactly that item, returns the quit command
and changes no other field. -/
theorem enter_selects_merchant (m : model TI) (it : Membership)
    (hs : m.searching = false) (hidx : index m.displayed m.cursor = some it)
    (ht : it.Resource.Type_ ≠ "organization") :
    Update W m (Msg.KeyMsg "enter") = some ({ m with selected := some it }, Cmd.Quit) := by
  rw [Update_enter_browsing W m it hs hidx, if_neg ht]

/-! ### The cursor invariant -/

theorem forwardToInput_browsing (m : model TI) (msg : Msg) (hs : m.searching = false) :
    forwardToInput W m msg = (m, Cmd.nil) := by
  simp [forwardToInput, hs]

theorem forwardToInput_changed (m : model TI) (msg : Msg) (hs : m.searching = true)
    (hne : W.Value m.searchInput ≠ W.Value (W.Update m.searchInput msg).1) :
    forwardToInput W m msg =
      ({ m with searchInput := (W.Update m.searchInput msg).1, searchPending := true, cursor := 0 },
        Cmd.batchDebounce (W.Update m.searchInput msg).2) := by
  simp [forwardToInput, hs, hne]

theorem forwardToInput_same (m : model TI) (msg : Msg) (hs : m.searching = true)
    (heq : W.Value m.searchInput = W.Value (W.Update m.searchInput msg).1) :
    forwardToInput W m msg =
      ({ m with searchInput := (W.Update m.searchInput msg).1 },
        Cmd.ofWidget (W.Update m.searchInput msg).2) := by
  simp [forwardToInput, hs, heq]

theorem CursorInBounds_of_eq {m m1 : model TI} (hd : m1.displayed = m.displayed)
    (hc : m1.cursor = m.cursor) (h : CursorInBounds m) : CursorInBounds m1 := by
  unfold CursorInBounds at *
  rw [hd, hc]
  exact h

theorem CursorInBounds_zero (m : model TI) (h : m.cursor = 0) : CursorInBounds m := by
  refine ⟨fun hne => ?_, fun _ => h⟩
  have hpos := List.length_pos.mpr hne
  rw [h]
  exact ⟨le_refl 0, by exact_mod_cast hpos⟩

theorem CursorInBounds_forwardToInput (m : model TI) (msg : Msg) (h : CursorInBounds m) :
    CursorInBounds (forwardToInput W m msg).1 := by
  cases hs : m.searching with
  | false => rw [forwardToInput_browsing W m msg hs]; exact h
  | true =>
    by_cases heq : W.Value m.searchInput = W.Value (W.Update m.searchInput msg).1
    · rw [forwardToInput_same W m msg hs heq]
      exact CursorInBounds_of_eq rfl rfl h
    · rw [forwardToInput_changed W m msg hs heq]
      exact CursorInBounds_zero _ rfl

theorem CursorInBounds_of_forward {m m1 : model TI} {msg : Msg} {c : Cmd}
    (h : CursorInBounds m) (hu : some (forwardToInput W m msg) = some (m1, c)) :
    CursorInBounds m1 := by
  have := CursorInBounds_forwardToInput W m msg h
  rw [Option.some.inj hu] at this
  exact this

theorem CursorInBounds_popLevel (m : model TI) (h : CursorInBounds m) :
    CursorInBounds (popLevel m) := by
  unfold popLevel
  split
  · exact h
  · exact CursorInBounds_zero _ rfl

theorem CursorInBounds_up (m : model TI) (h : CursorInBounds m) (hc : m.cursor > 0) :
    CursorInBounds { m with cursor := m.cursor - 1 } := by
  unfold CursorInBounds at *
  simp only
  constructor
  · intro hne
    have := h.1 hne
    omega
  · intro he
    have := h.2 he
    omega

theorem CursorInBounds_down (m : model TI) (h : CursorInBounds m)
    (hc : m.cursor < (m.displayed.length : Int) - 1) :
    CursorInBounds { m with cursor := m.cursor + 1 } := by
  unfold CursorInBounds at *
  simp only
  constructor
  · intro hne
    have := h.1 hne
    omega
  · intro he
    have := h.2 he
    rw [he] at hc
    simp at hc
    omega

/-- Every message handled by `Update` preserves the cursor invariant. -/
theorem CursorInBounds_Update (m m1 : model TI) (msg : Msg) (c : Cmd)
    (h : CursorInBounds m) (hu : Update W m msg = some (m1, c)) : CursorInBounds m1 := by
  cases msg with
  | searchResultMsg xs err =>
    cases err with
    | some e =>
      rw [Update_searchResult_err] at hu
      simp only [Option.some.injEq, Prod.mk.injEq] at hu
      rw [← hu.1]
      exact CursorInBounds_of_eq rfl rfl h
    | none =>
      rw [Update_searchResult_ok] at hu
      simp only [Option.some.injEq, Prod.mk.injEq] at hu
      rw [← hu.1]
      unfold CursorInBounds
      simp only
      constructor
      · intro hne
        have hpos : 0 < xs.length := List.length_pos.mpr hne
        split_ifs with hlt
        · refine ⟨?_, hlt⟩
          by_cases hd : m.displayed = []
          · rw [h.2 hd]
          · exact (h.1 hd).1
        · omega
      · intro he
        subst he
        by_cases hd : m.displayed = []
        · simp [h.2 hd]
        · have := (h.1 hd).1
          simp only [List.length_nil, Nat.cast_zero]
          rw [if_neg (by omega)]
          simp
  | searchDebounceMsg =>
    unfold Update at hu
    simp only at hu
    split_ifs at hu <;>
      (simp only [Option.some.injEq, Prod.mk.injEq] at hu; rw [← hu.1]) <;>
      exact CursorInBounds_of_eq rfl rfl h
  | otherMsg t =>
    unfold Update at hu
    simp only [Option.some.injEq] at hu
    have := CursorInBounds_forwardToInput W m (Msg.otherMsg t) h
    rw [hu] at this
    exact this
  | KeyMsg key =>
    unfold Update at hu
    simp only at hu
    split_ifs at hu with k1 k2 k3 k4 k5 k6 k7 k8 k9 k10 k11 k12 k13 k14 k15
    all_goals first
      | exact CursorInBounds_of_forward W h hu
      | exact CursorInBounds_of_forward W (CursorInBounds_up m h (by assumption)) hu
      | exact CursorInBounds_of_forward W (CursorInBounds_down m h (by assumption)) hu
      | (simp only [Option.some.injEq, Prod.mk.injEq] at hu
         rw [← hu.1]
         first
           | exact h
           | exact CursorInBounds_zero _ rfl
           | exact CursorInBounds_popLevel m h)
      | skip
    split at hu
    · exact absurd hu (by simp)
    · split_ifs at hu
      · have hm : (drillDownIntoOrg m _ _).1 = m1 := congrArg Prod.fst (Option.some.inj hu)
        rw [← hm]
        exact CursorInBounds_zero _ rfl
      · have hm : _ = m1 := congrArg Prod.fst (Option.some.inj hu)
        rw [← hm]
        exact CursorInBounds_of_eq rfl rfl h

/-- C1. Cursor bounds invariant: in every state reachable from the initial picker state
(non-empty root list, cursor 0, `displayed` = root items, empty stack) by any finite
sequence of messages (key presses, debounce firings, fetch completions carrying any item
list or an error, any other message), `0 ≤ cursor < len(displayed)` whenever `displayed`
is non-empty and `cursor = 0` whenever `displayed` is empty. -/
theorem cursor_bounds_invariant (searchInput : TI) (items : List Membership) (m : model TI)
    (_hroot : items ≠ []) (hr : Reachable W searchInput items m) :
    (m.displayed ≠ [] → 0 ≤ m.cursor ∧ m.cursor < (m.displayed.length : Int)) ∧
    (m.displayed = [] → m.cursor = 0) := by
  have key : CursorInBounds m := by
    induction hr with
    | init => exact CursorInBounds_zero _ rfl
    | step msg _ hu ih => exact CursorInBounds_Update W _ _ msg _ ih hu
  exact key

/-! ### Selection -/

theorem forwardToInput_selected (m : model TI) (msg : Msg) :
    (forwardToInput W m msg).1.selected = m.selected := by
  cases hs : m.searching with
  | false => rw [forwardToInput_browsing W m msg hs]
  | true =>
    by_cases heq : W.Value m.searchInput = W.Value (W.Update m.searchInput msg).1
    · rw [forwardToInput_same W m msg hs heq]
    · rw [forwardToInput_changed W m msg hs heq]

theorem popLevel_selected (m : model TI) : (popLevel m).selected = m.selected := by
  unfold popLevel
  split <;> rfl

/-- One message either keeps `selected` or sets it to a record that is not an
organization. -/
theorem Update_selected (m m1 : model TI) (msg : Msg) (c : Cmd)
    (hu : Update W m msg = some (m1, c)) :
    m1.selected = m.selected ∨
      ∃ it, m1.selected = some it ∧ it.Resource.Type_ ≠ "organization" := by
  cases msg with
  | searchResultMsg xs err =>
    cases err with
    | some e =>
      rw [Update_searchResult_err] at hu
      simp only [Option.some.injEq, Prod.mk.injEq] at hu
      rw [← hu.1]
      exact Or.inl rfl
    | none =>
      rw [Update_searchResult_ok] at hu
      simp only [Option.some.injEq, Prod.mk.injEq] at hu
      rw [← hu.1]
      exact Or.inl rfl
  | searchDebounceMsg =>
    unfold Update at hu
    simp only at hu
    split_ifs at hu <;>
      (simp only [Option.some.injEq, Prod.mk.injEq] at hu; rw [← hu.1]) <;>
      exact Or.inl rfl
  | otherMsg t =>
    unfold Update at hu
    have hm : (forwardToInput W m (Msg.otherMsg t)).1 = m1 :=
      congrArg Prod.fst (Option.some.inj hu)
    rw [← hm]
    exact Or.inl (forwardToInput_selected W m _)
  | KeyMsg key =>
    unfold Update at hu
    simp only at hu
    split_ifs at hu with k1 k2 k3 k4 k5 k6 k7 k8 k9 k10 k11 k12 k13 k14 k15
    all_goals first
      | (have hm : (forwardToInput W _ (Msg.KeyMsg key)).1 = m1 :=
           congrArg Prod.fst (Option.some.inj hu)
         rw [← hm]
         exact Or.inl (forwardToInput_selected W _ _))
      | (simp only [Option.some.injEq, Prod.mk.injEq] at hu
         rw [← hu.1]
         first
           | exact Or.inl rfl
           | exact Or.inl (popLevel_selected m))
      | skip
    split at hu
    · exact absurd hu (by simp)
    · split_ifs at hu with horg
      · have hm : (drillDownIntoOrg m _ _).1 = m1 := congrArg Prod.fst (Option.some.inj hu)
        rw [← hm]
        exact Or.inl rfl
      · have hm : _ = m1 := congrArg Prod.fst (Option.some.inj hu)
        rw [← hm]
        exact Or.inr ⟨_, rfl, horg⟩

/-- In every reachable state `selected` is unset or holds a record that is not an
organization. -/
theorem Reachable_selected (searchInput : TI) (items : List Membership) (m : model TI)
    (hr : Reachable W searchInput items m) :
    m.selected = none ∨ ∃ it, m.selected = some it ∧ it.Resource.Type_ ≠ "organization" := by
  induction hr with
  | init => exact Or.inl rfl
  | step msg _ hu ih =>
    rcases Update_selected W _ _ msg _ hu with h | h
    · rw [h]; exact ih
    · exact Or.inr h

/-- C4. Selecting an organization drills down and never sets `selected`: in every state
outside search mode whose cursor points at an item of type `organization` with id `I` and
name `N`, the enter key appends the current level to the navigation stack, makes the
current level `(items = [], parentID = I, parentType = organization, parentName = N)`,
sets `displayed` to the empty list, the cursor to `0` and `loading` to true, returns the
fetch with empty query and parent `(I, organization)` (not the quit command) and leaves
every other field, `selected` included, unchanged; and in every reachable state
`selected` is unset or holds a record that is not an organization. -/
theorem enter_drills_into_organization :
    (∀ (m : model TI) (it : Membership), m.searching = false →
      index m.displayed m.cursor = some it → it.Resource.Type_ = "organization" →
      Update W m (Msg.KeyMsg "enter") =
        some ({ m with
                navigationStack := m.navigationStack ++ [m.currentLevel]
                currentLevel :=
                  { memberships := [], parentID := it.Resource.ID,
                    parentType := "organization", parentName := it.Resource.Name }
                displayed := []
                cursor := 0
                loading := true },
              Cmd.searchMemberships "" it.Resource.ID "organization")) ∧
    (∀ (searchInput : TI) (items : List Membership) (m : model TI),
      Reachable W searchInput items m →
      m.selected = none ∨
        ∃ it, m.selected = some it ∧ it.Resource.Type_ ≠ "organization") := by
  refine ⟨fun m it hs hidx ht => ?_, fun ti items m hr => Reachable_selected W ti items m hr⟩
  rw [Update_enter_browsing W m it hs hidx, if_pos ht]
  rfl

/-! ### End-to-end scenario: drill down, then select -/

/-- C8. End-to-end drill-down scenario: from the initial state on the root list
`[org1 (organization, "Acme"), m1 (merchant, "Acme Shop")]` with cursor 0, the message
sequence enter, successful fetch completion with `[m2 (merchant, "Acme Shop EU")]`, down,
enter gives: after the first enter a pushed level with `parentID = "org1"` (the root level
saved on the stack) and a fetch issued with empty query; after the last enter `selected`
is the record with id `"m2"` and the quit command is returned. -/
theorem scenario_drill_down_select (searchInput : TI) :
    ∃ mA mB mC mD : model TI,
      Update W (initialModel searchInput [org1, m1]) (Msg.KeyMsg "enter") =
        some (mA, Cmd.searchMemberships "" "org1" "organization") ∧
      mA.navigationStack = [(initialModel searchInput [org1, m1]).currentLevel] ∧
      mA.currentLevel = ⟨[], "org1", "organization", "Acme"⟩ ∧
      mA.selected = none ∧
      Update W mA (Msg.searchResultMsg [m2] none) = some (mB, Cmd.nil) ∧
      mB.displayed = [m2] ∧
      Update W mB (Msg.KeyMsg "down") = some (mC, Cmd.nil) ∧
      Update W mC (Msg.KeyMsg "enter") = some (mD, Cmd.Quit) ∧
      mD.selected = some m2 ∧ mD.selected.map (fun it => it.Resource.ID) = some "m2" :=
  ⟨_, _, _, _, rfl, rfl, rfl, rfl, rfl, rfl, rfl, rfl, rfl, rfl⟩

/-! ### Push, fetch completions, pop -/

/-- A run of successful fetch completions always returns, and changes neither the
navigation stack nor `selected`. -/
theorem runAll_results (m : model TI) (xss : List (List Membership)) :
    ∃ m1 cs, runAll W m (xss.map fun xs => Msg.searchResultMsg xs none) = some (m1, cs) ∧
      m1.navigationStack = m.navigationStack := by
  induction xss generalizing m with
  | nil => exact ⟨m, [], rfl, rfl⟩
  | cons xs rest ih =>
    obtain ⟨m1, cs, hrun, hst⟩ := ih
      { m with
        loading := false
        currentLevel := { m.currentLevel with memberships := xs }
        displayed := xs
        cursor := if m.cursor < (xs.length : Int) then m.cursor
                  else max 0 ((xs.length : Int) - 1) }
    refine ⟨m1, Cmd.nil :: cs, ?_, hst⟩
    simp only [List.map_cons, runAll, Update_searchResult_ok, hrun]

/-- Popping a state whose stack ends with level `l`. -/
theorem popLevel_concat (m : model TI) (st : List navigationLevel) (l : navigationLevel)
    (h : m.navigationStack = st ++ [l]) :
    popLevel m =
      { m with navigationStack := st, currentLevel := l, displayed := l.memberships,
               cursor := 0 } := by
  unfold popLevel
  rw [h, List.getLast?_concat, List.dropLast_concat]

/-- C5. Pop restores exactly: for every state `s` and every new level `L`, after
`pushLevel(L)`, then any finite sequence of successful fetch completions (which overwrite
the pushed level's items), then `popLevel`, the current level is `s`'s current level (same
items and parent fields), `displayed` is that level's items and the navigation stack is
`s`'s stack; a drill-down into an organization from there starts with an empty item list
again, not with the items the fetch completions had stored. -/
theorem pop_restores_exactly (s : model TI) (L : navigationLevel)
    (xss : List (List Membership)) :
    ∃ m cs,
      runAll W (pushLevel s L) (xss.map fun xs => Msg.searchResultMsg xs none) = some (m, cs) ∧
      (popLevel m).currentLevel = s.currentLevel ∧
      (popLevel m).displayed = s.currentLevel.memberships ∧
      (popLevel m).navigationStack = s.navigationStack ∧
      ∀ orgID orgName : String,
        (drillDownIntoOrg (popLevel m) orgID orgName).1.currentLevel.memberships = [] ∧
        (drillDownIntoOrg (popLevel m) orgID orgName).1.displayed = [] ∧
        (drillDownIntoOrg (popLevel m) orgID orgName).1.navigationStack =
          s.navigationStack ++ [s.currentLevel] := by
  obtain ⟨m, cs, hrun, hst⟩ := runAll_results W (pushLevel s L) xss
  have hpop := popLevel_concat m s.navigationStack s.currentLevel hst
  refine ⟨m, cs, hrun, ?_, ?_, ?_, fun orgID orgName => ⟨rfl, rfl, ?_⟩⟩
  · rw [hpop]
  · rw [hpop]
  · rw [hpop]
  · rw [hpop]; rfl

/-! ### Debounce firings -/

theorem Update_debounce_idle (m : model TI) (hp : m.searchPending = false) :
    Update W m Msg.searchDebounceMsg = some (m, Cmd.nil) := by
  simp [Update, hp]

theorem Update_debounce_same (m : model TI) (hp : m.searchPending = true)
    (hq : TrimSpace (W.Value m.searchInput) = m.lastSearchQuery) :
    Update W m Msg.searchDebounceMsg = some ({ m with searchPending := false }, Cmd.nil) := by
  simp [Update, hp, hq]

theorem Update_debounce_fetch (m : model TI) (hp : m.searchPending = true)
    (hq : TrimSpace (W.Value m.searchInput) ≠ m.lastSearchQuery) :
    Update W m Msg.searchDebounceMsg =
      some ({ m with
              searchPending := false
              lastSearchQuery := TrimSpace (W.Value m.searchInput)
              loading := true },
            Cmd.searchMemberships (TrimSpace (W.Value m.searchInput))
              m.currentLevel.parentID m.currentLevel.parentType) := by
  simp [Update, hp, hq]

/-- A debounce firing always returns, and leaves no timer pending. -/
theorem Update_debounce_total (m : model TI) :
    ∃ m1 c, Update W m Msg.searchDebounceMsg = some (m1, c) ∧ m1.searchPending = false := by
  cases hp : m.searchPending with
  | false => exact ⟨m, Cmd.nil, Update_debounce_idle W m hp, hp⟩
  | true =>
    by_cases hq : TrimSpace (W.Value m.searchInput) = m.lastSearchQuery
    · exact ⟨_, _, Update_debounce_same W m hp hq, rfl⟩
    · exact ⟨_, _, Update_debounce_fetch W m hp hq, rfl⟩

/-- C7. Idempotent identical query: in every state whose trimmed query text equals
`lastSearchQuery`, two debounce firings in succession issue no fetch (each returns no
command) and leave `lastSearchQuery`, `loading`, `displayed`, `cursor` and the current
level unchanged; and in every state, two successive debounce firings issue at most one
fetch (the second one never issues any). -/
theorem debounce_idempotent :
    (∀ m : model TI, TrimSpace (W.Value m.searchInput) = m.lastSearchQuery →
      ∃ mA mB : model TI,
        Update W m Msg.searchDebounceMsg = some (mA, Cmd.nil) ∧
        Update W mA Msg.searchDebounceMsg = some (mB, Cmd.nil) ∧
        mA = { m with searchPending := false } ∧ mB = mA ∧
        mB.lastSearchQuery = m.lastSearchQuery ∧ mB.loading = m.loading ∧
        mB.displayed = m.displayed ∧ mB.cursor = m.cursor ∧
        mB.currentLevel = m.currentLevel) ∧
    (∀ m : model TI, ∃ (mA mB : model TI) (c : Cmd),
        Update W m Msg.searchDebounceMsg = some (mA, c) ∧
        Update W mA Msg.searchDebounceMsg = some (mB, Cmd.nil) ∧
        runAll W m [Msg.searchDebounceMsg, Msg.searchDebounceMsg] = some (mB, [c, Cmd.nil]) ∧
        fetchCount [c, Cmd.nil] ≤ 1) := by
  constructor
  · intro m hq
    refine ⟨{ m with searchPending := false }, { m with searchPending := false },
      ?_, Update_debounce_idle W _ rfl, rfl, rfl, rfl, rfl, rfl, rfl, rfl⟩
    cases hp : m.searchPending with
    | false =>
      rw [Update_debounce_idle W m hp]
      cases m
      simp only at hp
      subst hp
      rfl
    | true => exact Update_debounce_same W m hp hq
  · intro m
    obtain ⟨mA, c, hA, hpA⟩ := Update_debounce_total W m
    have hB := Update_debounce_idle W mA hpA
    refine ⟨mA, mA, c, hA, hB, ?_, ?_⟩
    · simp only [runAll, hA, hB]
    · cases c <;> simp [fetchCount, Cmd.isFetch]

/-! ### Debounce coalescing -/

/-- In search mode a forwarded key goes straight to the tail of `Update`. -/
theorem Update_key_forwarded (m : model TI) (key : String) (hs : m.searching = true)
    (hk : forwardedKey key = true) :
    Update W m (Msg.KeyMsg key) = some (forwardToInput W m (Msg.KeyMsg key)) := by
  simp only [forwardedKey, Bool.and_eq_true, bne_iff_ne, ne_eq] at hk
  obtain ⟨⟨⟨h1, h2⟩, h3⟩, h4⟩ := hk
  unfold Update
  simp only [h1, h2, h3, h4, hs, or_self, if_false, if_true, Bool.not_true]
  split_ifs <;> first | rfl | contradiction

/-- A run of query-changing keystrokes in search mode returns, issues no fetch, leaves the
text input as the keys left it and a debounce timer pending. -/
theorem runAll_keys (m : model TI) (keys : List String) (hs : m.searching = true)
    (hk : queryChanging W m.searchInput keys = true) :
    ∃ mK csK, runAll W m (keys.map Msg.KeyMsg) = some (mK, csK) ∧
      mK.searchInput = inputAfter W m.searchInput keys ∧
      mK.lastSearchQuery = m.lastSearchQuery ∧ mK.currentLevel = m.currentLevel ∧
      (m.searchPending = true ∨ keys ≠ [] → mK.searchPending = true) ∧
      fetchCount csK = 0 := by
  induction keys generalizing m with
  | nil =>
    refine ⟨m, [], rfl, rfl, rfl, rfl, ?_, rfl⟩
    rintro (h | h)
    · exact h
    · exact absurd rfl h
  | cons key rest ih =>
    simp only [queryChanging, Bool.and_eq_true, bne_iff_ne, ne_eq] at hk
    obtain ⟨⟨hf, hne⟩, hrest⟩ := hk
    have hstep := Update_key_forwarded W m key hs hf
    rw [forwardToInput_changed W m (Msg.KeyMsg key) hs hne] at hstep
    obtain ⟨mK, csK, hrun, hin, hlast, hlev, hpend, hcount⟩ :=
      ih { m with searchInput := (W.Update m.searchInput (Msg.KeyMsg key)).1,
                  searchPending := true, cursor := 0 } hs hrest
    refine ⟨mK, Cmd.batchDebounce (W.Update m.searchInput (Msg.KeyMsg key)).2 :: csK,
      ?_, hin, hlast, hlev, fun _ => hpend (Or.inl rfl), ?_⟩
    · simp only [List.map_cons, runAll, hstep, hrun]
    · simp only [fetchCount, List.filter_cons, Cmd.isFetch] at hcount ⊢
      exact hcount

/-- With no timer pending, any number of debounce firings changes nothing. -/
theorem runAll_debounce_idle (m : model TI) (n : Nat) (hp : m.searchPending = false) :
    runAll W m (List.replicate n Msg.searchDebounceMsg) =
      some (m, List.replicate n Cmd.nil) := by
  induction n with
  | zero => rfl
  | succ n ih => simp only [List.replicate_succ, runAll, Update_debounce_idle W m hp, ih]

theorem fetchCount_replicate_nil (n : Nat) : fetchCount (List.replicate n Cmd.nil) = 0 := by
  induction n with
  | zero => rfl
  | succ n ih => simp [fetchCount, List.replicate_succ, Cmd.isFetch]

theorem fetchCount_append (xs ys : List Cmd) :
    fetchCount (xs ++ ys) = fetchCount xs + fetchCount ys := by
  simp [fetchCount, List.filter_append]

/-- C6. Debounce coalescing: starting in search mode with no timer pending, for every
non-empty sequence of `n` query-changing keystrokes followed by the `n` debounce firings
they armed, at most one fetch is issued in total; when the trimmed final text differs from
`lastSearchQuery` exactly one fetch is issued, by the first firing, with query equal to
the trimmed final text and the current level's `parentID` and `parentType`. -/
theorem debounce_coalescing (m : model TI) (keys : List String)
    (hs : m.searching = true) (hp : m.searchPending = false) (hn : keys ≠ [])
    (hk : queryChanging W m.searchInput keys = true) :
    ∃ mK csK mD csD,
      runAll W m (keys.map Msg.KeyMsg) = some (mK, csK) ∧
      mK.searchInput = inputAfter W m.searchInput keys ∧
      runAll W mK (List.replicate keys.length Msg.searchDebounceMsg) = some (mD, csD) ∧
      fetchCount (csK ++ csD) ≤ 1 ∧
      (TrimSpace (W.Value (inputAfter W m.searchInput keys)) ≠ m.lastSearchQuery →
        csD = Cmd.searchMemberships (TrimSpace (W.Value (inputAfter W m.searchInput keys)))
                m.currentLevel.parentID m.currentLevel.parentType ::
              List.replicate (keys.length - 1) Cmd.nil ∧
        fetchCount (csK ++ csD) = 1) ∧
      (TrimSpace (W.Value (inputAfter W m.searchInput keys)) = m.lastSearchQuery →
        fetchCount (csK ++ csD) = 0) := by
  have _ := hp
  obtain ⟨mK, csK, hrun, hin, hlast, hlev, hpend, hcount⟩ := runAll_keys W m keys hs hk
  have hpK : mK.searchPending = true := hpend (Or.inr hn)
  obtain ⟨n, hlen⟩ : ∃ n, keys.length = n + 1 := by
    cases keys with
    | nil => exact absurd rfl hn
    | cons k ks => exact ⟨ks.length, rfl⟩
  by_cases hq : TrimSpace (W.Value mK.searchInput) = mK.lastSearchQuery
  · have h1 := Update_debounce_same W mK hpK hq
    have h2 := runAll_debounce_idle W { mK with searchPending := false } n rfl
    have hcs : fetchCount (csK ++ Cmd.nil :: List.replicate n Cmd.nil) = 0 := by
      rw [fetchCount_append, hcount, ← List.replicate_succ, fetchCount_replicate_nil]
    refine ⟨mK, csK, { mK with searchPending := false }, Cmd.nil :: List.replicate n Cmd.nil,
      hrun, hin, ?_, ?_, ?_, ?_⟩
    · rw [hlen]
      simp only [List.replicate_succ, runAll, h1, h2]
    · omega
    · intro hne
      rw [← hin, ← hlast] at hne
      exact absurd hq hne
    · intro _
      exact hcs
  · have h1 := Update_debounce_fetch W mK hpK hq
    have h2 := runAll_debounce_idle W
      { mK with searchPending := false
                lastSearchQuery := TrimSpace (W.Value mK.searchInput)
                loading := true } n rfl
    have hcs : fetchCount (csK ++ Cmd.searchMemberships (TrimSpace (W.Value mK.searchInput))
        mK.currentLevel.parentID mK.currentLevel.parentType :: List.replicate n Cmd.nil) = 1 := by
      rw [fetchCount_append, hcount]
      have := fetchCount_replicate_nil n
      simp only [fetchCount, List.filter_cons, Cmd.isFetch, if_true, List.length_cons] at this ⊢
      omega
    refine ⟨mK, csK,
      { mK with searchPending := false
                lastSearchQuery := TrimSpace (W.Value mK.searchInput)
                loading := true },
      Cmd.searchMemberships (TrimSpace (W.Value mK.searchInput))
        mK.currentLevel.parentID mK.currentLevel.parentType :: List.replicate n Cmd.nil,
      hrun, hin, ?_, ?_, ?_, ?_⟩
    · rw [hlen]
      simp only [List.replicate_succ, runAll, h1, h2]
    · omega
    · intro _
      refine ⟨?_, hcs⟩
      rw [hlen, ← hin, ← hlev]
      rfl
    · intro heq
      rw [← hin, ← hlast] at heq
      exact absurd heq hq

/-! ### Escape after a search -/

/-- Escape in search mode is `clearSearch`. -/
theorem Update_esc_searching (m : model TI) (hs : m.searching = true) :
    Update W m (Msg.KeyMsg "esc") = some (clearSearch W m, Cmd.nil) := by
  simp [Update, hs]

/-- In search mode, a successful fetch completion with items `R` followed by escape leaves
`R` on display: the completion stored `R` as the current level's items, and `clearSearch`
restores `displayed` from there. -/
theorem escape_after_result (m : model TI) (R : List Membership) (hs : m.searching = true) :
    ∃ mA mB : model TI,
      Update W m (Msg.searchResultMsg R none) = some (mA, Cmd.nil) ∧
      Update W mA (Msg.KeyMsg "esc") = some (mB, Cmd.nil) ∧
      mB.displayed = R ∧ mB.currentLevel.memberships = R ∧ mB.lastSearchQuery = "" ∧
      mB.searching = false :=
  ⟨_, _, Update_searchResult_ok W m R, Update_esc_searching W _ hs, rfl, rfl, rfl, rfl⟩

/-! ### Keys outside the text input: quit, escape, down -/

/-- The quit keys return `tea.Quit` and the state as it is. -/
theorem Update_quit (m : model TI) (key : String) (hk : key = "ctrl+c" ∨ key = "q") :
    Update W m (Msg.KeyMsg key) = some (m, Cmd.Quit) := by
  simp [Update, hk]

/-- Escape outside search mode pops a level when there is one. -/
theorem Update_esc_browsing (m : model TI) (hs : m.searching = false) :
    Update W m (Msg.KeyMsg "esc") =
      some (if m.navigationStack.length > 0 then popLevel m else m, Cmd.nil) := by
  unfold Update
  simp only [hs]
  split_ifs <;> first | rfl | contradiction

/-- The down keys outside search mode. -/
theorem Update_down_browsing (m : model TI) (key : String) (hk : key = "down" ∨ key = "j")
    (hs : m.searching = false) :
    Update W m (Msg.KeyMsg key) =
      some ({ m with cursor := if m.cursor < (m.displayed.length : Int) - 1 then m.cursor + 1
                               else m.cursor }, Cmd.nil) := by
  by_cases hc : m.cursor < (m.displayed.length : Int) - 1
  · rcases hk with hk | hk <;> subst hk <;>
      simp [Update, hs, hc, forwardToInput]
  · rcases hk with hk | hk <;> subst hk <;>
      simp only [Update, forwardToInput, hs, hc, if_false, if_true, Bool.not_false] <;>
      simp <;>
      (cases m; simp_all)

/-- C14. Debounce firing step: in every state a debounce firing returns, and it issues a
fetch if and only if `searchPending` is true and the trimmed query text differs from
`lastSearchQuery`; when it does, `lastSearchQuery` becomes the trimmed query, `loading`
becomes true and the fetch arguments are the trimmed query and the current level's
`parentID` and `parentType`; when `searchPending` is false the state is returned unchanged
with no command. -/
theorem debounce_step (m : model TI) :
    ∃ m1 c, Update W m Msg.searchDebounceMsg = some (m1, c) ∧
      (c.isFetch = true ↔
        (m.searchPending = true ∧ TrimSpace (W.Value m.searchInput) ≠ m.lastSearchQuery)) ∧
      (c.isFetch = true →
        m1 = { m with searchPending := false
                      lastSearchQuery := TrimSpace (W.Value m.searchInput)
                      loading := true } ∧
        c = Cmd.searchMemberships (TrimSpace (W.Value m.searchInput))
              m.currentLevel.parentID m.currentLevel.parentType) ∧
      (c.isFetch = false → c = Cmd.nil ∧ m1 = { m with searchPending := false }) ∧
      (m.searchPending = false → m1 = m ∧ c = Cmd.nil) := by
  cases hp : m.searchPending with
  | false =>
    refine ⟨m, Cmd.nil, Update_debounce_idle W m hp, ?_, ?_, ?_, fun _ => ⟨rfl, rfl⟩⟩
    · simp [Cmd.isFetch]
    · intro h; simp [Cmd.isFetch] at h
    · intro _
      refine ⟨rfl, ?_⟩
      cases m
      simp only at hp
      subst hp
      rfl
  | true =>
    by_cases hq : TrimSpace (W.Value m.searchInput) = m.lastSearchQuery
    · refine ⟨_, _, Update_debounce_same W m hp hq, ?_, ?_, ?_, ?_⟩
      · simp [Cmd.isFetch, hq]
      · intro h; simp [Cmd.isFetch] at h
      · intro _; exact ⟨rfl, rfl⟩
      · intro h; simp at h
    · refine ⟨_, _, Update_debounce_fetch W m hp hq, ?_, ?_, ?_, ?_⟩
      · simp [Cmd.isFetch, hq]
      · intro _; exact ⟨rfl, rfl⟩
      · intro h; simp [Cmd.isFetch] at h
      · intro h; simp at h

/-- C16. Back navigation: in every state outside search mode, the escape key returns the
state unchanged when the navigation stack is empty; otherwise it removes the last stack
entry, makes it the current level, sets `displayed` to that entry's stored items and the
cursor to 0; in both cases no command is returned and every other field (`loading`,
`lastSearchQuery`, `selected` among them) is unchanged. -/
theorem escape_pops_level (m : model TI) (hs : m.searching = false) :
    (m.navigationStack = [] → Update W m (Msg.KeyMsg "esc") = some (m, Cmd.nil)) ∧
    (∀ (st : List navigationLevel) (l : navigationLevel), m.navigationStack = st ++ [l] →
      Update W m (Msg.KeyMsg "esc") =
        some ({ m with navigationStack := st, currentLevel := l,
                       displayed := l.memberships, cursor := 0 }, Cmd.nil)) := by
  constructor
  · intro h
    rw [Update_esc_browsing W m hs, h]
    rfl
  · intro st l h
    rw [Update_esc_browsing W m hs, if_pos (by rw [h]; simp), popLevel_concat m st l h]

/-- C17. Search clear: in every state in search mode, the escape key sets `searching` to
false, the text input to the result of `SetValue("")` (whose value is the empty string),
`displayed` to the current level's stored items, `lastSearchQuery` to the empty string and
the cursor to 0, leaves every other field (navigation stack and current level among them)
unchanged, and returns no command. -/
theorem escape_clears_search (m : model TI) (hs : m.searching = true)
    (hset : ∀ t : TI, W.Value (W.SetValue t "") = "") :
    ∃ m1, Update W m (Msg.KeyMsg "esc") = some (m1, Cmd.nil) ∧
      m1 = { m with searching := false
                    searchInput := W.SetValue m.searchInput ""
                    displayed := m.currentLevel.memberships
                    lastSearchQuery := ""
                    cursor := 0 } ∧
      W.Value m1.searchInput = "" ∧ m1.navigationStack = m.navigationStack ∧
      m1.currentLevel = m.currentLevel :=
  ⟨_, Update_esc_searching W m hs, rfl, hset _, rfl, rfl⟩

/-- C18 (amended). Down key: in every state outside search mode, the down or `j` key adds
one to the cursor when `cursor < len(displayed) - 1` and leaves it as it is otherwise, and
changes no other field; the new cursor is `min(len(displayed) - 1, cursor + 1)` whenever
`cursor ≤ len(displayed) - 1`, which covers every non-empty list with the cursor in
bounds, and on an empty list with cursor 0 the cursor stays 0. -/
theorem down_key_moves_cursor (m : model TI) (key : String) (hk : key = "down" ∨ key = "j")
    (hs : m.searching = false) :
    ∃ m1, Update W m (Msg.KeyMsg key) = some (m1, Cmd.nil) ∧
      m1 = { m with cursor := if m.cursor < (m.displayed.length : Int) - 1 then m.cursor + 1
                              else m.cursor } ∧
      (m.cursor ≤ (m.displayed.length : Int) - 1 →
        m1.cursor = min ((m.displayed.length : Int) - 1) (m.cursor + 1)) ∧
      (m.displayed = [] → m.cursor = 0 → m1.cursor = 0) := by
  refine ⟨_, Update_down_browsing W m key hk hs, rfl, ?_, ?_⟩
  · intro hle
    show (if m.cursor < (m.displayed.length : Int) - 1 then m.cursor + 1 else m.cursor) = _
    split_ifs with hc
    · rw [min_eq_right (by omega)]
    · rw [min_eq_left (by omega)]; omega
  · intro hd hc
    show (if m.cursor < (m.displayed.length : Int) - 1 then m.cursor + 1 else m.cursor) = _
    rw [hd, hc]
    simp

/-- C19 (amended). Quit key: in every state, search mode with the text input focused
included, the keys ctrl+c and `q` return the quit command and the state exactly as it was:
the key is not forwarded to the text input (the query is unchanged) and `selected` is left
as it was, so it is unset afterwards when it was unset before. -/
theorem quit_key_returns_quit (m : model TI) (key : String)
    (hk : key = "ctrl+c" ∨ key = "q") :
    Update W m (Msg.KeyMsg key) = some (m, Cmd.Quit) ∧
    (∀ m1 c, Update W m (Msg.KeyMsg key) = some (m1, c) →
      W.Value m1.searchInput = W.Value m.searchInput ∧ m1.selected = m.selected ∧
      (m.selected = none → m1.selected = none)) := by
  refine ⟨Update_quit W m key hk, fun m1 c h => ?_⟩
  rw [Update_quit W m key hk] at h
  simp only [Option.some.injEq, Prod.mk.injEq] at h
  rw [← h.1]
  exact ⟨rfl, rfl, fun h0 => h0⟩

/-! ### The remaining keys, one lemma per branch of the `switch` -/

theorem Update_slash_browsing (m : model TI) (hs : m.searching = false) :
    Update W m (Msg.KeyMsg "/") =
      some ({ m with searching := true, searchInput := (W.Focus m.searchInput).1 },
        Cmd.ofWidget (W.Focus m.searchInput).2) := by
  simp [Update, hs]

theorem Update_enter_searching (m : model TI) (hs : m.searching = true) :
    Update W m (Msg.KeyMsg "enter") =
      some ({ m with searching := false, searchInput := W.Blur m.searchInput }, Cmd.nil) := by
  simp [Update, hs]

/-- Enter outside search mode when the guard on the cursor fails: nothing happens. -/
theorem Update_enter_no_item (m : model TI) (hs : m.searching = false)
    (hg : ¬ (m.displayed.length > 0 ∧ m.cursor < (m.displayed.length : Int))) :
    Update W m (Msg.KeyMsg "enter") = some (m, Cmd.nil) := by
  unfold Update
  simp only [hs]
  simp only [if_neg hg, forwardToInput_browsing W m _ hs]
  simp

/-- Enter outside search mode with a negative cursor on a non-empty list: the index
expression panics. -/
theorem Update_enter_panic (m : model TI) (hs : m.searching = false)
    (hg : m.displayed.length > 0 ∧ m.cursor < (m.displayed.length : Int))
    (hidx : index m.displayed m.cursor = none) :
    Update W m (Msg.KeyMsg "enter") = none := by
  unfold Update
  simp only [hs, hidx]
  simp only [if_pos hg]
  simp

/-- The up keys outside search mode. -/
theorem Update_up_browsing (m : model TI) (key : String) (hk : key = "up" ∨ key = "k")
    (hs : m.searching = false) :
    Update W m (Msg.KeyMsg key) =
      some ({ m with cursor := if m.cursor > 0 then m.cursor - 1 else m.cursor }, Cmd.nil) := by
  by_cases hc : m.cursor > 0
  · rcases hk with hk | hk <;> subst hk <;>
      simp [Update, hs, hc, forwardToInput]
  · rcases hk with hk | hk <;> subst hk <;>
      simp only [Update, forwardToInput, hs, hc, if_false, if_true, Bool.not_false] <;>
      simp <;>
      (cases m; simp_all)

/-- Keys that are not named in the `switch` do nothing outside search mode. -/
theorem Update_other_browsing (m : model TI) (key : String) (hs : m.searching = false)
    (k1 : ¬ (key = "ctrl+c" ∨ key = "q")) (k2 : key ≠ "esc") (k3 : key ≠ "/")
    (k4 : key ≠ "enter") (k5 : ¬ (key = "up" ∨ key = "k"))
    (k6 : ¬ (key = "down" ∨ key = "j")) :
    Update W m (Msg.KeyMsg key) = some (m, Cmd.nil) := by
  unfold Update
  simp only
  rw [if_neg k1, if_neg k2, if_neg k3, if_neg k4, if_neg k5, if_neg k6,
    forwardToInput_browsing W m _ hs]

/-! ### The error field is never read by `Update` -/

theorem forwardToInput_err (m : model TI) (msg : Msg) (x : Option String) :
    forwardToInput W { m with err := x } msg =
      ({ (forwardToInput W m msg).1 with err := x }, (forwardToInput W m msg).2) := by
  by_cases hs : m.searching = true
  · by_cases heq : W.Value m.searchInput = W.Value (W.Update m.searchInput msg).1
    · have h1 := forwardToInput_same W m msg hs heq
      have h2 := forwardToInput_same W { m with err := x } msg hs heq
      exact h2.trans (by simp only [h1])
    · have h1 := forwardToInput_changed W m msg hs heq
      have h2 := forwardToInput_changed W { m with err := x } msg hs heq
      exact h2.trans (by simp only [h1])
  · have hs1 : m.searching = false := by simpa using hs
    have h1 := forwardToInput_browsing W m msg hs1
    have h2 := forwardToInput_browsing W { m with err := x } msg hs1
    exact h2.trans (by simp only [h1])

theorem popLevel_err (m : model TI) (x : Option String) :
    popLevel { m with err := x } = { popLevel m with err := x } := by
  unfold popLevel
  cases h : m.navigationStack.getLast? with
  | none => simp only [h]
  | some l => simp only [h]

/-- A key press in search mode is handled the same way whatever the error field holds. -/
theorem Update_err_frame_searching (m : model TI) (key : String) (x : Option String)
    (hs : m.searching = true) :
    Update W { m with err := x } (Msg.KeyMsg key) =
      (Update W m (Msg.KeyMsg key)).map (fun r => ({ r.1 with err := x }, r.2)) := by
  by_cases k1 : key = "ctrl+c" ∨ key = "q"
  · rw [Update_quit W _ key k1, Update_quit W m key k1]; rfl
  by_cases k2 : key = "esc"
  · subst k2
    rw [Update_esc_searching W { m with err := x } hs, Update_esc_searching W m hs]; rfl
  by_cases k4 : key = "enter"
  · subst k4
    rw [Update_enter_searching W { m with err := x } hs, Update_enter_searching W m hs]; rfl
  have hf : forwardedKey key = true := by
    simp only [forwardedKey, Bool.and_eq_true, bne_iff_ne, ne_eq]
    exact ⟨⟨⟨fun h => k1 (Or.inl h), fun h => k1 (Or.inr h)⟩, k2⟩, k4⟩
  rw [Update_key_forwarded W { m with err := x } key hs hf, Update_key_forwarded W m key hs hf]
  exact congrArg some (forwardToInput_err W m _ x)

/-- A key press outside search mode is handled the same way whatever the error field
holds. -/
theorem Update_err_frame_browsing (m : model TI) (key : String) (x : Option String)
    (hs : m.searching = false) :
    Update W { m with err := x } (Msg.KeyMsg key) =
      (Update W m (Msg.KeyMsg key)).map (fun r => ({ r.1 with err := x }, r.2)) := by
  by_cases k1 : key = "ctrl+c" ∨ key = "q"
  · rw [Update_quit W _ key k1, Update_quit W m key k1]; rfl
  by_cases k2 : key = "esc"
  · subst k2
    rw [Update_esc_browsing W { m with err := x } hs, Update_esc_browsing W m hs]
    by_cases hl : m.navigationStack.length > 0
    · rw [if_pos hl, if_pos hl]
      exact congrArg (fun r => some (r, Cmd.nil)) (popLevel_err m x)
    · rw [if_neg hl, if_neg hl]; rfl
  by_cases k3 : key = "/"
  · subst k3
    rw [Update_slash_browsing W { m with err := x } hs, Update_slash_browsing W m hs]; rfl
  by_cases k4 : key = "enter"
  · subst k4
    by_cases hg : m.displayed.length > 0 ∧ m.cursor < (m.displayed.length : Int)
    · cases hidx : index m.displayed m.cursor with
      | none =>
        rw [Update_enter_panic W { m with err := x } hs hg hidx,
          Update_enter_panic W m hs hg hidx]; rfl
      | some it =>
        rw [Update_enter_browsing W { m with err := x } it hs hidx,
          Update_enter_browsing W m it hs hidx]
        split_ifs <;> rfl
    · rw [Update_enter_no_item W { m with err := x } hs hg, Update_enter_no_item W m hs hg]; rfl
  by_cases k5 : key = "up" ∨ key = "k"
  · rw [Update_up_browsing W { m with err := x } key k5 hs, Update_up_browsing W m key k5 hs]; rfl
  by_cases k6 : key = "down" ∨ key = "j"
  · rw [Update_down_browsing W { m with err := x } key k6 hs,
      Update_down_browsing W m key k6 hs]; rfl
  rw [Update_other_browsing W { m with err := x } key hs k1 k2 k3 k4 k5 k6,
    Update_other_browsing W m key hs k1 k2 k3 k4 k5 k6]; rfl

/-- Except for a failed fetch completion, `Update` handles a message in a state with any
error field exactly as in the same state with another error field, and carries the error
field over. -/
theorem Update_err_frame (m : model TI) (msg : Msg) (x : Option String)
    (hmsg : ∀ xs e, msg ≠ Msg.searchResultMsg xs (some e)) :
    Update W { m with err := x } msg =
      (Update W m msg).map (fun r => ({ r.1 with err := x }, r.2)) := by
  cases msg with
  | searchResultMsg xs err =>
    cases err with
    | some e => exact absurd rfl (hmsg xs e)
    | none =>
      rw [Update_searchResult_ok, Update_searchResult_ok]
      rfl
  | searchDebounceMsg =>
    unfold Update
    simp only
    split_ifs <;> rfl
  | otherMsg t =>
    unfold Update
    exact congrArg some (forwardToInput_err W m _ x)
  | KeyMsg key =>
    by_cases hs : m.searching = true
    · exact Update_err_frame_searching W m key x hs
    · exact Update_err_frame_browsing W m key x (by simpa using hs)

/-- C11 (amended). A fetch error does not gate the event handler: in every state whose
fatal error is set, the quit keys return the quit command with the state unchanged; every
message other than a failed fetch completion is handled exactly as in the same state
without the error, with the error carried over (`Update` never reads the error field), so
keys, debounce firings and fetch completions can still change the state and issue
commands; and the fatal error is still set after every message. -/
theorem error_does_not_gate_update (m : model TI) (e : String) (he : m.err = some e) :
    (∀ key, key = "ctrl+c" ∨ key = "q" → Update W m (Msg.KeyMsg key) = some (m, Cmd.Quit)) ∧
    (∀ msg, (∀ xs e1, msg ≠ Msg.searchResultMsg xs (some e1)) →
      Update W m msg =
        (Update W { m with err := none } msg).map
          (fun r => ({ r.1 with err := some e }, r.2))) ∧
    (∀ msg m1 c, Update W m msg = some (m1, c) → m1.err ≠ none) := by
  have hm : ({ { m with err := none } with err := some e } : model TI) = m := by
    cases m
    simp only at he
    subst he
    rfl
  have hframe : ∀ msg, (∀ xs e1, msg ≠ Msg.searchResultMsg xs (some e1)) →
      Update W m msg =
        (Update W { m with err := none } msg).map
          (fun r => ({ r.1 with err := some e }, r.2)) := by
    intro msg hmsg
    have h := Update_err_frame W { m with err := none } msg (some e) hmsg
    rw [hm] at h
    exact h
  refine ⟨fun key hk => Update_quit W m key hk, hframe, fun msg m1 c hu => ?_⟩
  by_cases hmsg : ∀ xs e1, msg ≠ Msg.searchResultMsg xs (some e1)
  · rw [hframe msg hmsg] at hu
    cases h0 : Update W { m with err := none } msg with
    | none => rw [h0] at hu; exact absurd hu (by simp)
    | some r =>
      rw [h0] at hu
      simp only [Option.map_some', Option.some.injEq, Prod.mk.injEq] at hu
      rw [← hu.1]
      simp
  · push_neg at hmsg
    obtain ⟨xs, e1, rfl⟩ := hmsg
    rw [Update_searchResult_err] at hu
    simp only [Option.some.injEq, Prod.mk.injEq] at hu
    rw [← hu.1]
    simp

/-! ### After a selection -/

/-- A run over a non-empty list of messages splits into its first step and the rest. -/
theorem runAll_cons_some (m : model TI) (msg : Msg) (rest : List Msg) (m1 : model TI)
    (cs : List Cmd) (hrun : runAll W m (msg :: rest) = some (m1, cs)) :
    ∃ mA c cs2, Update W m msg = some (mA, c) ∧ runAll W mA rest = some (m1, cs2) ∧
      cs = c :: cs2 := by
  simp only [runAll] at hrun
  cases hu : Update W m msg with
  | none => rw [hu] at hrun; exact absurd hrun (by simp)
  | some r =>
    obtain ⟨mA, c⟩ := r
    rw [hu] at hrun
    simp only at hrun
    cases hr : runAll W mA rest with
    | none => rw [hr] at hrun; exact absurd hrun (by simp)
    | some r2 =>
      obtain ⟨mB, cs2⟩ := r2
      rw [hr] at hrun
      simp only [Option.some.injEq, Prod.mk.injEq] at hrun
      exact ⟨mA, c, cs2, rfl, by rw [← hrun.1]; exact hr, hrun.2.symm⟩

/-- Whatever messages follow, a selection of a record that is not an organization is
never cleared. -/
theorem runAll_selected (m : model TI) (msgs : List Msg) (m1 : model TI) (cs : List Cmd)
    (hrun : runAll W m msgs = some (m1, cs))
    (hsel : ∃ it, m.selected = some it ∧ it.Resource.Type_ ≠ "organization") :
    ∃ it, m1.selected = some it ∧ it.Resource.Type_ ≠ "organization" := by
  induction msgs generalizing m cs with
  | nil =>
    simp only [runAll, Option.some.injEq, Prod.mk.injEq] at hrun
    rw [← hrun.1]
    exact hsel
  | cons msg rest ih =>
    obtain ⟨mA, c, cs2, hu, hr, _⟩ := runAll_cons_some W m msg rest m1 cs hrun
    refine ih mA cs2 hr ?_
    rcases Update_selected W m mA msg c hu with h | h
    · rw [h]; exact hsel
    · exact h

/-- C12 (amended). Once `selected` holds a record that is not an organization, every
later sequence of messages (key presses, debounce firings, fetch completions) leaves
`selected` set to a record that is not an organization: it is never cleared.  `Update` has
no guard on `selected`, so the other fields can still change and an enter on another such
item replaces the record. -/
theorem selected_stays_set (m : model TI) (it : Membership) (hsel : m.selected = some it)
    (ht : it.Resource.Type_ ≠ "organization") (msgs : List Msg) (m1 : model TI)
    (cs : List Cmd) (hrun : runAll W m msgs = some (m1, cs)) :
    ∃ it1, m1.selected = some it1 ∧ it1.Resource.Type_ ≠ "organization" :=
  runAll_selected W m msgs m1 cs hrun ⟨it, hsel, ht⟩

/-- States reached by `runAll` from a reachable state are reachable. -/
theorem Reachable_runAll (searchInput : TI) (items : List Membership) (m : model TI)
    (msgs : List Msg) (m1 : model TI) (cs : List Cmd)
    (hr : Reachable W searchInput items m) (hrun : runAll W m msgs = some (m1, cs)) :
    Reachable W searchInput items m1 := by
  induction msgs generalizing m cs with
  | nil =>
    simp only [runAll, Option.some.injEq, Prod.mk.injEq] at hrun
    rw [← hrun.1]
    exact hr
  | cons msg rest ih =>
    obtain ⟨mA, c, cs2, hu, hr2, _⟩ := runAll_cons_some W m msg rest m1 cs hrun
    exact ih mA cs2 (Reachable.step msg hr hu) hr2

/-- C13 (amended). In every reachable state exactly one of the following holds: `selected`
is unset (no selection), or `selected` is a record that is not an organization.  The fatal
error is a separate field that does not enter this alternative: it can be set together
with a selection. -/
theorem selection_outcome_reachable (searchInput : TI) (items : List Membership)
    (m : model TI) (hr : Reachable W searchInput items m) :
    (m.selected = none ∨
      ∃ it, m.selected = some it ∧ it.Resource.Type_ ≠ "organization") ∧
    ¬ (m.selected = none ∧
      ∃ it, m.selected = some it ∧ it.Resource.Type_ ≠ "organization") := by
  refine ⟨Reachable_selected W searchInput items m hr, ?_⟩
  rintro ⟨h0, it, h1, _⟩
  rw [h0] at h1
  exact Option.noConfusion h1

/-! ### Drill down, then back -/

/-- A run of successful fetch completions changes neither the navigation stack nor the
search-mode flag. -/
theorem runAll_results_frame (m : model TI) (xss : List (List Membership)) :
    ∃ m1 cs, runAll W m (xss.map fun xs => Msg.searchResultMsg xs none) = some (m1, cs) ∧
      m1.navigationStack = m.navigationStack ∧ m1.searching = m.searching := by
  induction xss generalizing m with
  | nil => exact ⟨m, [], rfl, rfl, rfl⟩
  | cons xs rest ih =>
    obtain ⟨m1, cs, hrun, hst, hse⟩ := ih
      { m with
        loading := false
        currentLevel := { m.currentLevel with memberships := xs }
        displayed := xs
        cursor := if m.cursor < (xs.length : Int) then m.cursor
                  else max 0 ((xs.length : Int) - 1) }
    refine ⟨m1, Cmd.nil :: cs, ?_, hst, hse⟩
    simp only [List.map_cons, runAll, Update_searchResult_ok, hrun]

/-- C20 (amended). Popping restores the previous level's items but not its cursor: if the
user drilled into an organization with the cursor at any index, then after any successful
fetch completions the escape key makes the previous level current again, with its stored
items on display and the previous stack, and sets the cursor to 0 (a level does not store
a cursor). -/
theorem pop_resets_cursor (m : model TI) (it : Membership) (hs : m.searching = false)
    (hidx : index m.displayed m.cursor = some it)
    (ht : it.Resource.Type_ = "organization") (xss : List (List Membership)) :
    ∃ mD mF cs mP,
      Update W m (Msg.KeyMsg "enter") =
        some (mD, Cmd.searchMemberships "" it.Resource.ID "organization") ∧
      runAll W mD (xss.map fun xs => Msg.searchResultMsg xs none) = some (mF, cs) ∧
      Update W mF (Msg.KeyMsg "esc") = some (mP, Cmd.nil) ∧
      mP.cursor = 0 ∧ mP.currentLevel = m.currentLevel ∧
      mP.displayed = m.currentLevel.memberships ∧
      mP.navigationStack = m.navigationStack := by
  have hD : Update W m (Msg.KeyMsg "enter") =
      some (drillDownIntoOrg m it.Resource.ID it.Resource.Name) := by
    rw [Update_enter_browsing W m it hs hidx, if_pos ht]
  obtain ⟨mF, cs, hrun, hst, hse⟩ :=
    runAll_results_frame W (drillDownIntoOrg m it.Resource.ID it.Resource.Name).1 xss
  have hst1 : mF.navigationStack = m.navigationStack ++ [m.currentLevel] := hst
  have hse1 : mF.searching = false := hse.trans hs
  have hpop := popLevel_concat mF m.navigationStack m.currentLevel hst1
  refine ⟨_, mF, cs, popLevel mF, hD, hrun, ?_, ?_, ?_, ?_, ?_⟩
  · rw [Update_esc_browsing W mF hse1, if_pos (by rw [hst1]; simp)]
  · rw [hpop]
  · rw [hpop]
  · rw [hpop]
  · rw [hpop]

/-! ### What one message can do to the navigation path and the list on display -/

theorem ofWidget_isFetch (o : Option Nat) : (Cmd.ofWidget o).isFetch = false := by
  cases o <;> rfl

theorem forwardToInput_frame (m : model TI) (msg : Msg) :
    (forwardToInput W m msg).1.navigationStack = m.navigationStack ∧
    (forwardToInput W m msg).1.currentLevel = m.currentLevel ∧
    (forwardToInput W m msg).1.displayed = m.displayed ∧
    (forwardToInput W m msg).2.isFetch = false := by
  by_cases hs : m.searching = true
  · by_cases heq : W.Value m.searchInput = W.Value (W.Update m.searchInput msg).1
    · rw [forwardToInput_same W m msg hs heq]
      refine ⟨rfl, rfl, rfl, ?_⟩
      cases (W.Update m.searchInput msg).2 <;> rfl
    · rw [forwardToInput_changed W m msg hs heq]
      exact ⟨rfl, rfl, rfl, rfl⟩
  · rw [forwardToInput_browsing W m msg (by simpa using hs)]
    exact ⟨rfl, rfl, rfl, rfl⟩

theorem frame_of_forward {m m0 m1 : model TI} {msg : Msg} {c : Cmd}
    (hu : some (forwardToInput W m0 msg) = some (m1, c))
    (h1 : m0.navigationStack = m.navigationStack) (h2 : m0.currentLevel = m.currentLevel)
    (h3 : m0.displayed = m.displayed) :
    m1.navigationStack = m.navigationStack ∧ m1.currentLevel = m.currentLevel ∧
    m1.displayed = m.displayed ∧ c.isFetch = false := by
  have hf := forwardToInput_frame W m0 msg
  rw [Option.some.inj hu] at hf
  exact ⟨hf.1.trans h1, hf.2.1.trans h2, hf.2.2.1.trans h3, hf.2.2.2⟩

theorem pop_of_nonempty (m : model TI) (hl : m.navigationStack.length > 0) :
    ∃ st l, m.navigationStack = st ++ [l] ∧ (popLevel m).navigationStack = st ∧
      (popLevel m).currentLevel = l ∧ (popLevel m).displayed = l.memberships := by
  rcases List.eq_nil_or_concat m.navigationStack with h | ⟨st, l, h⟩
  · rw [h] at hl; exact absurd hl (by simp)
  · rw [List.concat_eq_append] at h
    refine ⟨st, l, h, ?_, ?_, ?_⟩ <;> rw [popLevel_concat m st l h]

/-- Every step of `Update` is of one of six kinds, told apart by what happens to the
navigation stack, the current level, the list on display and the command returned:
a step that leaves all three alone and fetches nothing; a successful fetch completion;
a search clear; a pop; a drill-down; a debounce firing that fetches. -/
theorem Update_cases (m m1 : model TI) (msg : Msg) (c : Cmd)
    (hu : Update W m msg = some (m1, c)) :
    (m1.navigationStack = m.navigationStack ∧ m1.currentLevel = m.currentLevel ∧
      m1.displayed = m.displayed ∧ c.isFetch = false) ∨
    (∃ xs, m1.navigationStack = m.navigationStack ∧
      m1.currentLevel = { m.currentLevel with memberships := xs } ∧ m1.displayed = xs ∧
      c = Cmd.nil) ∨
    (m1.navigationStack = m.navigationStack ∧ m1.currentLevel = m.currentLevel ∧
      m1.displayed = m.currentLevel.memberships ∧ c = Cmd.nil) ∨
    (∃ st l, m.navigationStack = st ++ [l] ∧ m1.navigationStack = st ∧
      m1.currentLevel = l ∧ m1.displayed = l.memberships ∧ c = Cmd.nil) ∨
    (∃ it, index m.displayed m.cursor = some it ∧ it.Resource.Type_ = "organization" ∧
      m1.navigationStack = m.navigationStack ++ [m.currentLevel] ∧
      m1.currentLevel = ⟨[], it.Resource.ID, "organization", it.Resource.Name⟩ ∧
      m1.displayed = [] ∧ m1.loading = true ∧
      c = Cmd.searchMemberships "" it.Resource.ID "organization") ∨
    (m1.navigationStack = m.navigationStack ∧ m1.currentLevel = m.currentLevel ∧
      m1.displayed = m.displayed ∧ m1.loading = true ∧
      m1.lastSearchQuery ≠ m.lastSearchQuery ∧
      c = Cmd.searchMemberships m1.lastSearchQuery m.currentLevel.parentID
            m.currentLevel.parentType) := by
  cases msg with
  | searchResultMsg xs err =>
    cases err with
    | some e =>
      rw [Update_searchResult_err] at hu
      simp only [Option.some.injEq, Prod.mk.injEq] at hu
      obtain ⟨rfl, rfl⟩ := hu
      exact Or.inl ⟨rfl, rfl, rfl, rfl⟩
    | none =>
      rw [Update_searchResult_ok] at hu
      simp only [Option.some.injEq, Prod.mk.injEq] at hu
      obtain ⟨rfl, rfl⟩ := hu
      exact Or.inr (Or.inl ⟨xs, rfl, rfl, rfl, rfl⟩)
  | searchDebounceMsg =>
    by_cases hp : m.searchPending = true
    · by_cases hq : TrimSpace (W.Value m.searchInput) = m.lastSearchQuery
      · rw [Update_debounce_same W m hp hq] at hu
        simp only [Option.some.injEq, Prod.mk.injEq] at hu
        obtain ⟨rfl, rfl⟩ := hu
        exact Or.inl ⟨rfl, rfl, rfl, rfl⟩
      · rw [Update_debounce_fetch W m hp hq] at hu
        simp only [Option.some.injEq, Prod.mk.injEq] at hu
        obtain ⟨rfl, rfl⟩ := hu
        exact Or.inr (Or.inr (Or.inr (Or.inr (Or.inr ⟨rfl, rfl, rfl, rfl, hq, rfl⟩))))
    · rw [Update_debounce_idle W m (by simpa using hp)] at hu
      simp only [Option.some.injEq, Prod.mk.injEq] at hu
      obtain ⟨rfl, rfl⟩ := hu
      exact Or.inl ⟨rfl, rfl, rfl, rfl⟩
  | otherMsg t =>
    unfold Update at hu
    exact Or.inl (frame_of_forward W hu rfl rfl rfl)
  | KeyMsg key =>
    unfold Update at hu
    simp only at hu
    split_ifs at hu with k1 k2 k3 k4 k5 k6 k7 k8 k9 k10 k11 k12 k13 k14 k15
    all_goals first
      | exact Or.inl (frame_of_forward W hu rfl rfl rfl)
      | (simp only [Option.some.injEq, Prod.mk.injEq] at hu
         obtain ⟨rfl, rfl⟩ := hu
         first
           | exact Or.inl ⟨rfl, rfl, rfl, rfl⟩
           | exact Or.inl ⟨rfl, rfl, rfl, ofWidget_isFetch _⟩
           | exact Or.inr (Or.inr (Or.inl ⟨rfl, rfl, rfl, rfl⟩))
           | (obtain ⟨st, l, h1, h2, h3, h4⟩ := pop_of_nonempty m (by assumption)
              exact Or.inr (Or.inr (Or.inr (Or.inl ⟨st, l, h1, h2, h3, h4, rfl⟩)))))
      | skip
    split at hu
    · exact absurd hu (by simp)
    · rename_i it hidx
      split_ifs at hu with horg
      · simp only [Option.some.injEq] at hu
        have h1 : (drillDownIntoOrg m it.Resource.ID it.Resource.Name).1 = m1 :=
          congrArg Prod.fst hu
        have h2 : (drillDownIntoOrg m it.Resource.ID it.Resource.Name).2 = c :=
          congrArg Prod.snd hu
        subst h1 h2
        exact Or.inr (Or.inr (Or.inr (Or.inr (Or.inl
          ⟨it, hidx, horg, rfl, rfl, rfl, rfl, rfl⟩))))
      · simp only [Option.some.injEq, Prod.mk.injEq] at hu
        obtain ⟨rfl, rfl⟩ := hu
        exact Or.inl ⟨rfl, rfl, rfl, rfl⟩

/-! ### `displayed` and the current level -/

/-- One message keeps `displayed` equal to the current level's items. -/
theorem mirror_Update (m m1 : model TI) (msg : Msg) (c : Cmd)
    (h : m.displayed = m.currentLevel.memberships) (hu : Update W m msg = some (m1, c)) :
    m1.displayed = m1.currentLevel.memberships := by
  rcases Update_cases W m m1 msg c hu with
    ⟨_, h2, h3, _⟩ | ⟨xs, _, h2, h3, _⟩ | ⟨_, h2, h3, _⟩ | ⟨st, l, _, _, h2, h3, _⟩ |
    ⟨it, _, _, _, h2, h3, _⟩ | ⟨_, h2, h3, _⟩
  · rw [h3, h2, h]
  · rw [h3, h2]
  · rw [h3, h2]
  · rw [h3, h2]
  · rw [h3, h2]
  · rw [h3, h2, h]

/-- C27. `displayed` mirrors the current level: in every state reachable from the initial
picker state, `displayed` equals the current level's stored item list, after every message
and also while a search filter is active (a search result is stored in the current level
as well). -/
theorem displayed_mirrors_level (searchInput : TI) (items : List Membership) (m : model TI)
    (hr : Reachable W searchInput items m) :
    m.displayed = m.currentLevel.memberships := by
  induction hr with
  | init => rfl
  | step msg _ hu ih => exact mirror_Update W _ _ msg _ ih hu

/-! ### Shape of the navigation stack -/

theorem StackShape_of_eq {m m1 : model TI} (h1 : m1.navigationStack = m.navigationStack)
    (h2 : m1.currentLevel.parentID = m.currentLevel.parentID)
    (h3 : m1.currentLevel.parentType = m.currentLevel.parentType) (h : StackShape m) :
    StackShape m1 := by
  unfold StackShape at *
  rw [h1, h2, h3]
  exact h

theorem StackShape_pop {m m1 : model TI} (st : List navigationLevel) (l : navigationLevel)
    (h1 : m.navigationStack = st ++ [l]) (h2 : m1.navigationStack = st)
    (h3 : m1.currentLevel = l) (h : StackShape m) : StackShape m1 := by
  unfold StackShape at *
  rw [h1] at h
  rw [h2, h3]
  cases st with
  | nil => exact ⟨h.1, h.2.1⟩
  | cons b r =>
    simp only [List.cons_append] at h
    refine ⟨h.1, h.2.1, fun x hx => h.2.2.1 x (List.mem_append_left _ hx), ?_⟩
    exact h.2.2.1 l (List.mem_append_right _ (List.mem_singleton.mpr rfl))

theorem StackShape_push {m m1 : model TI}
    (h1 : m1.navigationStack = m.navigationStack ++ [m.currentLevel])
    (h2 : m1.currentLevel.parentType = "organization") (h : StackShape m) :
    StackShape m1 := by
  unfold StackShape at *
  rw [h1]
  cases hst : m.navigationStack with
  | nil =>
    rw [hst] at h
    exact ⟨h.1, h.2, fun x hx => absurd hx (List.not_mem_nil x), h2⟩
  | cons b r =>
    rw [hst] at h
    simp only [List.cons_append]
    refine ⟨h.1, h.2.1, fun x hx => ?_, h2⟩
    rcases List.mem_append.mp hx with hx | hx
    · exact h.2.2.1 x hx
    · rw [List.mem_singleton.mp hx]; exact h.2.2.2

/-- One message keeps the shape of the navigation path. -/
theorem StackShape_Update (m m1 : model TI) (msg : Msg) (c : Cmd) (h : StackShape m)
    (hu : Update W m msg = some (m1, c)) : StackShape m1 := by
  rcases Update_cases W m m1 msg c hu with
    ⟨h1, h2, _⟩ | ⟨xs, h1, h2, _⟩ | ⟨h1, h2, _⟩ | ⟨st, l, h1, h2, h3, _⟩ |
    ⟨it, _, _, h1, h2, _⟩ | ⟨h1, h2, _⟩
  · exact StackShape_of_eq h1 (by rw [h2]) (by rw [h2]) h
  · exact StackShape_of_eq h1 (by rw [h2]) (by rw [h2]) h
  · exact StackShape_of_eq h1 (by rw [h2]) (by rw [h2]) h
  · exact StackShape_pop st l h1 h2 h3 h
  · exact StackShape_push h1 (by rw [h2]) h
  · exact StackShape_of_eq h1 (by rw [h2]) (by rw [h2]) h

theorem Reachable_StackShape (searchInput : TI) (items : List Membership) (m : model TI)
    (hr : Reachable W searchInput items m) : StackShape m := by
  induction hr with
  | init => exact ⟨rfl, rfl⟩
  | step msg _ hu ih => exact StackShape_Update W _ _ msg _ ih hu

/-- C28. Navigation stack shape: in every state reachable from the initial picker state,
the navigation stack is empty if and only if the current level is the root (empty
`parentID` and `parentType`); when the stack is non-empty its bottom entry is a root level
with empty parent fields, and every other stack entry and the current level have
`parentType` `organization`. -/
theorem navigation_stack_shape (searchInput : TI) (items : List Membership) (m : model TI)
    (hr : Reachable W searchInput items m) :
    (m.navigationStack = [] ↔
      (m.currentLevel.parentID = "" ∧ m.currentLevel.parentType = "")) ∧
    (∀ bottom rest, m.navigationStack = bottom :: rest →
      bottom.parentID = "" ∧ bottom.parentType = "" ∧
      (∀ l ∈ rest, l.parentType = "organization") ∧
      m.currentLevel.parentType = "organization") := by
  have h := Reachable_StackShape W searchInput items m hr
  unfold StackShape at h
  constructor
  · constructor
    · intro h0
      rw [h0] at h
      exact h
    · intro hroot
      cases hst : m.navigationStack with
      | nil => rfl
      | cons b r =>
        rw [hst] at h
        have h1 := h.2.2.2
        rw [hroot.2] at h1
        exact absurd h1 (by decide)
  · intro bottom rest hst
    rw [hst] at h
    exact h

/-! ### Escape, then debounce firings -/

theorem TrimSpace_empty : TrimSpace "" = "" := by
  rfl

/-- C29. No fetch after cancelling a search: in every state in search mode, with or
without a debounce timer pending, escape followed by any number of debounce firings
returns no command at any step (so no fetch is issued) and leaves `lastSearchQuery` equal
to the empty string; the text input is one whose `SetValue("")` yields the empty value. -/
theorem no_fetch_after_escape (m : model TI) (n : Nat) (hs : m.searching = true)
    (hset : ∀ t : TI, W.Value (W.SetValue t "") = "") :
    ∃ mE mD cs,
      Update W m (Msg.KeyMsg "esc") = some (mE, Cmd.nil) ∧
      runAll W mE (List.replicate n Msg.searchDebounceMsg) = some (mD, cs) ∧
      cs = List.replicate n Cmd.nil ∧ fetchCount cs = 0 ∧
      mE.lastSearchQuery = "" ∧ mD.lastSearchQuery = "" := by
  have hE := Update_esc_searching W m hs
  have hq : TrimSpace (W.Value (clearSearch W m).searchInput) =
      (clearSearch W m).lastSearchQuery := by
    show TrimSpace (W.Value (W.SetValue m.searchInput "")) = ""
    rw [hset, TrimSpace_empty]
  cases n with
  | zero => exact ⟨_, _, [], hE, rfl, rfl, rfl, rfl, rfl⟩
  | succ k =>
    by_cases hp : (clearSearch W m).searchPending = true
    · have h1 := Update_debounce_same W (clearSearch W m) hp hq
      have h2 := runAll_debounce_idle W { clearSearch W m with searchPending := false } k rfl
      refine ⟨_, { clearSearch W m with searchPending := false },
        List.replicate (k + 1) Cmd.nil, hE, ?_, rfl, fetchCount_replicate_nil _, rfl, rfl⟩
      simp only [List.replicate_succ, runAll, h1, h2]
    · have hp0 : (clearSearch W m).searchPending = false := by simpa using hp
      exact ⟨_, clearSearch W m, List.replicate (k + 1) Cmd.nil, hE,
        runAll_debounce_idle W _ (k + 1) hp0, rfl, fetchCount_replicate_nil _, rfl, rfl⟩

/-! ### Outstanding fetches -/

/-- A message starts at most one fetch, and when it starts one `loading` is true
afterwards. -/
theorem Update_fetches (m m1 : model TI) (msg : Msg) (c : Cmd)
    (hu : Update W m msg = some (m1, c)) :
    c.fetches = [] ∨ ∃ f, c.fetches = [f] ∧ m1.loading = true := by
  rcases Update_cases W m m1 msg c hu with
    ⟨_, _, _, h⟩ | ⟨xs, _, _, _, h⟩ | ⟨_, _, _, h⟩ | ⟨st, l, _, _, _, _, h⟩ |
    ⟨it, _, _, _, _, _, hl, h⟩ | ⟨_, _, _, hl, _, h⟩
  · left
    cases c <;> first | rfl | (simp [Cmd.isFetch] at h)
  · left; rw [h]; rfl
  · left; rw [h]; rfl
  · left; rw [h]; rfl
  · right; rw [h]; exact ⟨_, rfl, hl⟩
  · right; rw [h]; exact ⟨_, rfl, hl⟩

/-- C22 (amended). The engine keeps no record of outstanding fetches.  Every event changes
the outstanding fetches by at most one added fetch; whenever an event adds a fetch,
`loading` is true afterwards; and a fetch added by a debounce firing has a query different
from `lastSearchQuery` before the firing, which then becomes that query. -/
theorem step_adds_at_most_one_fetch (s s1 : Engine TI) (ev : Event)
    (hstep : Engine.step W s ev = some s1) :
    s1.outstanding.length ≤ s.outstanding.length + 1 ∧
    (∀ f, s1.outstanding = s.outstanding ++ [f] → s1.m.loading = true) ∧
    (∀ f, ev = Event.input Msg.searchDebounceMsg → s1.outstanding = s.outstanding ++ [f] →
      f.query ≠ s.m.lastSearchQuery ∧ s1.m.lastSearchQuery = f.query) := by
  have key : ∀ (msg : Msg) (base : List Fetch), base.length ≤ s.outstanding.length →
      (match Update W s.m msg with
        | none => none
        | some (m1, c) => some (⟨m1, base ++ c.fetches⟩ : Engine TI)) = some s1 →
      ∃ m1 c, Update W s.m msg = some (m1, c) ∧ s1 = ⟨m1, base ++ c.fetches⟩ := by
    intro msg base _ h
    cases hu : Update W s.m msg with
    | none => rw [hu] at h; exact absurd h (by simp)
    | some r =>
      obtain ⟨m1, c⟩ := r
      rw [hu] at h
      simp only [Option.some.injEq] at h
      exact ⟨m1, c, rfl, h.symm⟩
  cases ev with
  | completion i xs err =>
    simp only [Engine.step] at hstep
    split_ifs at hstep with hi
    obtain ⟨m1, c, hu, rfl⟩ := key (Msg.searchResultMsg xs err) (s.outstanding.eraseIdx i)
      (by rw [List.length_eraseIdx, if_pos hi]; omega) hstep
    have hc : c.fetches = [] := by
      cases err with
      | none =>
        rw [Update_searchResult_ok] at hu
        simp only [Option.some.injEq, Prod.mk.injEq] at hu
        rw [← hu.2]; rfl
      | some e =>
        rw [Update_searchResult_err] at hu
        simp only [Option.some.injEq, Prod.mk.injEq] at hu
        rw [← hu.2]; rfl
    have hlen : (s.outstanding.eraseIdx i ++ c.fetches).length = s.outstanding.length - 1 := by
      rw [hc, List.append_nil, List.length_eraseIdx, if_pos hi]
    refine ⟨?_, ?_, ?_⟩
    · show (s.outstanding.eraseIdx i ++ c.fetches).length ≤ _
      omega
    · intro f hf
      have := congrArg List.length hf
      simp only [List.length_append, List.length_singleton] at this hlen
      omega
    · intro f hev
      exact absurd hev (by simp)
  | input msg =>
    have hne : ∀ xs e, msg ≠ Msg.searchResultMsg xs e := by
      intro xs e h
      rw [h] at hstep
      simp [Engine.step] at hstep
    have hstep2 : (match Update W s.m msg with
        | none => none
        | some (m1, c) => some (⟨m1, s.outstanding ++ c.fetches⟩ : Engine TI)) = some s1 := by
      cases msg with
      | searchResultMsg xs e => exact absurd rfl (hne xs e)
      | searchDebounceMsg => exact hstep
      | KeyMsg k => exact hstep
      | otherMsg t => exact hstep
    obtain ⟨m1, c, hu, rfl⟩ := key msg s.outstanding (le_refl _) hstep2
    have hf := Update_fetches W s.m m1 msg c hu
    refine ⟨?_, ?_, ?_⟩
    · show (s.outstanding ++ c.fetches).length ≤ _
      rcases hf with h | ⟨f, h, _⟩ <;> (rw [h]; simp)
    · intro f hfeq
      rcases hf with h | ⟨f0, _, hl⟩
      · have h1 : s.outstanding ++ c.fetches = s.outstanding ++ [f] := hfeq
        rw [h] at h1
        have := congrArg List.length h1
        simp at this
      · exact hl
    · intro f hev hfeq
      have hmsg : msg = Msg.searchDebounceMsg := by
        injection hev
      subst hmsg
      have h1 : s.outstanding ++ c.fetches = s.outstanding ++ [f] := hfeq
      have h2 : c.fetches = [f] := List.append_cancel_left h1
      by_cases hp : s.m.searchPending = true
      · by_cases hq : TrimSpace (W.Value s.m.searchInput) = s.m.lastSearchQuery
        · rw [Update_debounce_same W s.m hp hq] at hu
          simp only [Option.some.injEq, Prod.mk.injEq] at hu
          rw [← hu.2] at h2
          exact absurd h2 (by simp [Cmd.fetches])
        · rw [Update_debounce_fetch W s.m hp hq] at hu
          simp only [Option.some.injEq, Prod.mk.injEq] at hu
          obtain ⟨rfl, rfl⟩ := hu
          simp only [Cmd.fetches, List.cons.injEq, and_true] at h2
          rw [← h2]
          exact ⟨hq, rfl⟩
      · rw [Update_debounce_idle W s.m (by simpa using hp)] at hu
        simp only [Option.some.injEq, Prod.mk.injEq] at hu
        rw [← hu.2] at h2
        exact absurd h2 (by simp [Cmd.fetches])

/-! ### The renderer -/

theorem Contains_refl (t : String) : Contains t t :=
  List.infix_refl _

theorem Contains_append_left (a b t : String) (h : Contains a t) : Contains (a ++ b) t := by
  unfold Contains at *
  rw [String.data_append]
  exact h.trans (List.prefix_append _ _).isInfix

theorem Contains_append_right (a b t : String) (h : Contains b t) : Contains (a ++ b) t := by
  unfold Contains at *
  rw [String.data_append]
  exact h.trans (List.suffix_append _ _).isInfix

/-- The window arithmetic of `View` for a cursor inside a list of `n` items. -/
theorem window_spec (n : Nat) (cursor : Int) (h0 : 0 ≤ cursor) (h1 : cursor < (n : Int)) :
    (n ≤ 10 → window n cursor = (0, (n : Int))) ∧
    (n > 10 →
      (window n cursor).2 - (window n cursor).1 = 10 ∧
      (window n cursor).1 = max 0 (min (cursor - 5) ((n : Int) - 10)) ∧
      0 ≤ (window n cursor).1 ∧ (window n cursor).1 ≤ cursor ∧
      cursor < (window n cursor).2 ∧ (window n cursor).2 ≤ (n : Int)) := by
  constructor
  · intro hn
    have : ¬ ((n : Int) > 10) := by omega
    simp only [window, this, if_false]
  · intro hn
    have hn1 : (n : Int) > 10 := by omega
    have h5 : (10 : Int) / 2 = 5 := by decide
    simp only [window, hn1, if_true, h5]
    by_cases hc : cursor ≥ 5
    · by_cases he : cursor - 5 + 10 > (n : Int)
      · simp only [hc, if_true, he]
        rw [max_eq_right (by omega), min_eq_right (by omega), max_eq_right (by omega)]
        omega
      · simp only [hc, if_true, he, if_false]
        rw [min_eq_left (by omega), max_eq_right (by omega)]
        omega
    · have he : ¬ ((0 : Int) + 10 > (n : Int)) := by omega
      simp only [hc, if_false, he]
      rw [min_eq_left (by omega), max_eq_left (by omega)]
      omega

/-- The window always lies inside the list, whatever the cursor. -/
theorem window_bounds (n : Nat) (cursor : Int) :
    0 ≤ (window n cursor).1 ∧ (window n cursor).1 ≤ (window n cursor).2 ∧
    (window n cursor).2 ≤ (n : Int) := by
  have h5 : (10 : Int) / 2 = 5 := by decide
  unfold window
  simp only [h5]
  split_ifs <;> simp only <;> omega

theorem index_some_of_bounds {α : Type} (xs : List α) (i : Int) (h0 : 0 ≤ i)
    (h1 : i < (xs.length : Int)) : ∃ a, index xs i = some a := by
  have hlt : i.toNat < xs.length := by omega
  refine ⟨xs[i.toNat], ?_⟩
  unfold index
  rw [if_neg (by omega), List.getElem?_eq_getElem hlt]

/-- The row loop does not panic on a range inside the list. -/
theorem renderRows_some (R : Renderer TI) (cursor : Int) (items : List Membership)
    (count : Nat) (i : Int) (h0 : 0 ≤ i) (h1 : i + (count : Int) ≤ (items.length : Int)) :
    ∃ rows, renderRows R cursor items i count = some rows := by
  induction count generalizing i with
  | zero => exact ⟨"", rfl⟩
  | succ k ih =>
    obtain ⟨a, ha⟩ := index_some_of_bounds items i h0 (by push_cast at h1; omega)
    obtain ⟨rest, hrest⟩ := ih (i + 1) (by omega) (by push_cast at h1 ⊢; omega)
    exact ⟨renderRow R cursor i a ++ "\n" ++ rest, by simp only [renderRows, ha, hrest]⟩

/-- With no error stored, `View` returns a frame made of the title, the search line, the
rows, the status text and the help line. -/
theorem View_frame (R : Renderer TI) (m : model TI) (herr : m.err = none) :
    ∃ rows, View R m =
      some (viewTitle R m ++ "\n\n" ++ viewSearch R m ++ rows ++ viewStatus m ++ "\n\n" ++
        viewHelp R m) := by
  have hb := window_bounds m.displayed.length m.cursor
  obtain ⟨rows, hrows⟩ := renderRows_some R m.cursor m.displayed
    ((window m.displayed.length m.cursor).2 - (window m.displayed.length m.cursor).1).toNat
    (window m.displayed.length m.cursor).1 hb.1 (by omega)
  exact ⟨rows, by simp only [View, herr, hrows]⟩

/-- The frame contains whatever the status text contains. -/
theorem Contains_status (a b c d e : String) (t : String) (h : Contains d t) :
    Contains (a ++ "\n\n" ++ b ++ c ++ d ++ "\n\n" ++ e) t := by
  apply Contains_append_left
  apply Contains_append_left
  apply Contains_append_right
  exact h

/-- Indexing with a natural number does not panic on the sign check. -/
theorem index_natCast {α : Type} (xs : List α) (k : Nat) : index xs (k : Int) = xs[k]? := by
  unfold index
  rw [if_neg (by omega), Int.toNat_ofNat]

/-- The row loop writes the rows of the range in order, each from its own index. -/
theorem renderRows_eq (R : Renderer TI) (cursor : Int) (items : List Membership)
    (count k : Nat) (h : k + count ≤ items.length) :
    renderRows R cursor items (k : Int) count =
      some (List.foldr
        (fun (p : Nat × Membership) rest => renderRow R cursor (p.1 : Int) p.2 ++ "\n" ++ rest)
        "" (List.enumFrom k ((items.drop k).take count))) := by
  induction count generalizing k with
  | zero => simp [renderRows]
  | succ c ih =>
    have hk : k < items.length := by omega
    have hidx : index items (k : Int) = some items[k] := by
      rw [index_natCast, List.getElem?_eq_getElem hk]
    have hnext : renderRows R cursor items ((k : Int) + 1) c = _ := ih (k + 1) (by omega)
    simp only [renderRows, hidx, hnext]
    rw [List.drop_eq_getElem_cons hk, List.take_succ_cons, List.enumFrom_cons, List.foldr_cons]

/-- C23 (amended). Viewport window: for every displayed list of length `n` and cursor with
`0 ≤ cursor < n`, the row range `[start, end)` that `View` computes satisfies: if `n ≤ 10`
then `start = 0` and `end = n`; if `n > 10` then `end - start = 10` and
`start = clamp(cursor - 5, 0, n - 10)`; in both cases `0 ≤ start ≤ cursor < end ≤ n`; and
in a state with no fatal error the frame `View` returns is the title, the search line,
exactly the rows `start` to `end - 1` of the list in order, each drawn from its own index
(the row of the cursor is one of them), then for `n > 10` the text `(Showing A-B of N)`
with `A = start + 1`, `B = end`, `N = n`, and the help line. -/
theorem viewport_window (R : Renderer TI) (m : model TI) (start end_ : Int)
    (h0 : 0 ≤ m.cursor) (h1 : m.cursor < (m.displayed.length : Int))
    (hw : window m.displayed.length m.cursor = (start, end_)) :
    (m.displayed.length ≤ 10 → start = 0 ∧ end_ = (m.displayed.length : Int)) ∧
    (m.displayed.length > 10 →
      end_ - start = 10 ∧ start = max 0 (min (m.cursor - 5) ((m.displayed.length : Int) - 10))) ∧
    (0 ≤ start ∧ start ≤ m.cursor ∧ m.cursor < end_ ∧ end_ ≤ (m.displayed.length : Int)) ∧
    (m.err = none →
      ∃ item frame,
        m.displayed[m.cursor.toNat]? = some item ∧
        (m.cursor.toNat, item) ∈
          List.enumFrom start.toNat ((m.displayed.drop start.toNat).take (end_ - start).toNat) ∧
        View R m = some frame ∧
        frame = viewTitle R m ++ "\n\n" ++ viewSearch R m ++
          List.foldr
            (fun (p : Nat × Membership) rest =>
              renderRow R m.cursor (p.1 : Int) p.2 ++ "\n" ++ rest)
            "" (List.enumFrom start.toNat
              ((m.displayed.drop start.toNat).take (end_ - start).toNat)) ++
          (if m.displayed.length > 10 then
            "\n" ++ showingText (start + 1) end_ m.displayed.length else "") ++
          "\n\n" ++ viewHelp R m ∧
        (m.displayed.length > 10 →
          Contains frame (showingText (start + 1) end_ m.displayed.length))) := by
  have hs := window_spec m.displayed.length m.cursor h0 h1
  rw [hw] at hs
  simp only at hs
  have hb : 0 ≤ start ∧ start ≤ m.cursor ∧ m.cursor < end_ ∧
      end_ ≤ (m.displayed.length : Int) := by
    by_cases hn : m.displayed.length ≤ 10
    · have h := hs.1 hn
      have h2 := congrArg Prod.fst h
      have h3 := congrArg Prod.snd h
      simp only at h2 h3
      omega
    · obtain ⟨_, _, w3, w4, w5, w6⟩ := hs.2 (by omega)
      exact ⟨w3, w4, w5, w6⟩
  refine ⟨fun hn => ?_, fun hn => ?_, hb, fun herr => ?_⟩
  · have h := hs.1 hn
    exact ⟨congrArg Prod.fst h, congrArg Prod.snd h⟩
  · obtain ⟨w1, w2, _⟩ := hs.2 hn
    exact ⟨w1, w2⟩
  · obtain ⟨b1, b2, b3, b4⟩ := hb
    have hlt : m.cursor.toNat < m.displayed.length := by omega
    have hstatus : viewStatus m =
        (if m.displayed.length > 10 then
          "\n" ++ showingText (start + 1) end_ m.displayed.length else "") := by
      unfold viewStatus
      rw [if_neg (by omega), hw]
    have hrows := renderRows_eq R m.cursor m.displayed (end_ - start).toNat start.toNat
      (by omega)
    rw [Int.toNat_of_nonneg b1] at hrows
    have hview : View R m = some (viewTitle R m ++ "\n\n" ++ viewSearch R m ++
        List.foldr
          (fun (p : Nat × Membership) rest =>
            renderRow R m.cursor (p.1 : Int) p.2 ++ "\n" ++ rest)
          "" (List.enumFrom start.toNat
            ((m.displayed.drop start.toNat).take (end_ - start).toNat)) ++
        (if m.displayed.length > 10 then
          "\n" ++ showingText (start + 1) end_ m.displayed.length else "") ++
        "\n\n" ++ viewHelp R m) := by
      simp only [View, herr, hw, hrows, hstatus]
    refine ⟨m.displayed[m.cursor.toNat], _, List.getElem?_eq_getElem hlt, ?_, hview, rfl, ?_⟩
    · rw [List.mk_mem_enumFrom_iff_le_and_getElem?_sub]
      refine ⟨by omega, ?_⟩
      rw [List.getElem?_take_of_lt (by omega), List.getElem?_drop,
        show start.toNat + (m.cursor.toNat - start.toNat) = m.cursor.toNat by omega,
        List.getElem?_eq_getElem hlt]
    · intro hn
      apply Contains_status
      rw [if_pos hn]
      exact Contains_append_right _ _ _ (Contains_refl _)

/-- C24 (amended). Empty-state rendering: in every state with no fatal error and an empty
displayed list, `View` returns a frame whose status line, written after the (empty) rows,
is `Loading...` if and only if `loading` is true and `No items found.` if and only if
`loading` is false; the frame contains `Loading...` when `loading` is true and
`No items found.` when it is false, and it is never the error frame. -/
theorem empty_state_rendering (R : Renderer TI) (m : model TI) (herr : m.err = none)
    (hd : m.displayed = []) :
    ∃ frame, View R m = some frame ∧
      frame = viewTitle R m ++ "\n\n" ++ viewSearch R m ++ "" ++ (emptyLine m.loading ++ "\n") ++
        "\n\n" ++ viewHelp R m ∧
      (emptyLine m.loading = "Loading..." ↔ m.loading = true) ∧
      (emptyLine m.loading = "No items found." ↔ m.loading = false) ∧
      (m.loading = true → Contains frame "Loading...") ∧
      (m.loading = false → Contains frame "No items found.") := by
  have hst : viewStatus m = emptyLine m.loading ++ "\n" := by
    unfold viewStatus
    rw [hd]
    rfl
  have hw : window m.displayed.length m.cursor = (0, 0) := by
    rw [hd]
    rfl
  have hview : View R m = some (viewTitle R m ++ "\n\n" ++ viewSearch R m ++ "" ++
      (emptyLine m.loading ++ "\n") ++ "\n\n" ++ viewHelp R m) := by
    simp only [View, herr, hw, hst]
    rfl
  refine ⟨_, hview, rfl, ?_, ?_, ?_, ?_⟩
  · cases m.loading <;> simp [emptyLine]
  · cases m.loading <;> simp [emptyLine]
  · intro hl
    apply Contains_status
    rw [hl]
    exact Contains_append_left _ _ _ (Contains_refl _)
  · intro hl
    apply Contains_status
    rw [hl]
    exact Contains_append_left _ _ _ (Contains_refl _)

/-! ### The caller of the picker -/

/-- The outcome of `setContext` once the root list is fetched and the picker has returned
its final model: a case for each return of the source. -/
theorem setContext_final {FS : Type} (O : Host FS) (env : SetContextEnv TI) (fs : FS)
    (items : List Membership) (finalModel : model TI)
    (happ : env.appContext = none) (hlist : env.list = Except.ok items) (hne : items ≠ [])
    (hrun : env.run (initialModel env.newInput items) = Except.ok finalModel) :
    (finalModel.selected = none →
      setContext O env fs =
        (⟨none, [Message.Notify "Fetching your memberships...",
                 Message.Warn "No merchant selected."]⟩, fs)) ∧
    (∀ sel, finalModel.selected = some sel → sel.Resource.Type_ = "organization" →
      setContext O env fs =
        (⟨none, [Message.Notify "Fetching your memberships...",
                 Message.Warn "Please select a merchant, not an organization."]⟩, fs)) ∧
    (∀ sel, finalModel.selected = some sel → sel.Resource.Type_ ≠ "organization" →
      sel.Resource.ID = "" →
      setContext O env fs =
        (⟨some "merchant code not found in membership attributes",
          [Message.Notify "Fetching your memberships..."]⟩, fs)) ∧
    (∀ sel e, finalModel.selected = some sel → sel.Resource.Type_ ≠ "organization" →
      sel.Resource.ID ≠ "" → (SetCurrentMerchantCode O sel.Resource.ID fs).1 = some e →
      setContext O env fs =
        (⟨some ("save merchant context: " ++ e),
          [Message.Notify "Fetching your memberships..."]⟩,
          (SetCurrentMerchantCode O sel.Resource.ID fs).2)) ∧
    (∀ sel, finalModel.selected = some sel → sel.Resource.Type_ ≠ "organization" →
      sel.Resource.ID ≠ "" → (SetCurrentMerchantCode O sel.Resource.ID fs).1 = none →
      setContext O env fs =
        (⟨none, [Message.Notify "Fetching your memberships...",
                 Message.Success ("Merchant context set to: " ++ sel.Resource.Name ++ " (" ++
                   sel.Resource.ID ++ ")")]⟩,
          (SetCurrentMerchantCode O sel.Resource.ID fs).2)) := by
  have hlen : ¬ items.length = 0 := fun h => hne (List.length_eq_zero.mp h)
  refine ⟨?_, ?_, ?_, ?_, ?_⟩
  · intro hsel
    simp only [setContext, happ, hlist, hlen, if_false, hrun, hsel]
    rfl
  · intro sel hsel horg
    simp only [setContext, happ, hlist, hlen, if_false, hrun, hsel, horg, if_true]
    rfl
  · intro sel hsel horg hid
    simp only [setContext, happ, hlist, hlen, if_false, hrun, hsel, horg, hid, if_true]
  · intro sel e hsel horg hid hw
    simp only [setContext, happ, hlist, hlen, if_false, hrun, hsel, horg, hid]
    cases hc : SetCurrentMerchantCode O sel.Resource.ID fs with
    | mk r fs1 =>
      rw [hc] at hw
      simp only at hw
      subst hw
      rfl
  · intro sel hsel horg hid hw
    simp only [setContext, happ, hlist, hlen, if_false, hrun, hsel, horg, hid]
    cases hc : SetCurrentMerchantCode O sel.Resource.ID fs with
    | mk r fs1 =>
      rw [hc] at hw
      simp only at hw
      subst hw
      rfl

/-- C25 (amended). Caller boundary of the picker: when the root list was fetched,
`setContext` persists a merchant code (the file system it leaves is the one a successful
`config.SetCurrentMerchantCode` leaves, and it reports `Merchant context set to`) if and
only if the final model has `selected` set to a record that is not an organization and has
a non-empty resource id and the write to the configuration succeeds; for a record whose
merchant code is its resource id, the value written is that merchant code; when the write
fails, `setContext` returns the error `save merchant context: ...`; when the root list is
empty or the final model has no selection, the file system is left as it was and
`setContext` returns `nil` after the message `No memberships found.` or
`No merchant selected.`; nothing is written either when the selection is an organization
or has an empty resource id. -/
theorem setContext_boundary {FS : Type} (O : Host FS) (env : SetContextEnv TI) (fs : FS)
    (items : List Membership)
    (happ : env.appContext = none) (hlist : env.list = Except.ok items) :
    (items = [] →
      setContext O env fs =
        (⟨none, [Message.Notify "Fetching your memberships...",
                 Message.Warn "No memberships found."]⟩, fs)) ∧
    (∀ finalModel : model TI, items ≠ [] →
      env.run (initialModel env.newInput items) = Except.ok finalModel →
      ((∃ v name fs1, SetCurrentMerchantCode O v fs = (none, fs1) ∧
          setContext O env fs =
            (⟨none, [Message.Notify "Fetching your memberships...",
                     Message.Success ("Merchant context set to: " ++ name ++ " (" ++ v ++
                       ")")]⟩, fs1)) ↔
        ∃ sel, finalModel.selected = some sel ∧ sel.Resource.Type_ ≠ "organization" ∧
          sel.Resource.ID ≠ "" ∧ (SetCurrentMerchantCode O sel.Resource.ID fs).1 = none) ∧
      (∀ sel, finalModel.selected = some sel → sel.Resource.Type_ ≠ "organization" →
        sel.Resource.ID ≠ "" → merchantCode sel.Resource = sel.Resource.ID →
        (SetCurrentMerchantCode O sel.Resource.ID fs).1 = none →
        setContext O env fs =
          (⟨none, [Message.Notify "Fetching your memberships...",
                   Message.Success ("Merchant context set to: " ++ sel.Resource.Name ++ " (" ++
                     merchantCode sel.Resource ++ ")")]⟩,
            (SetCurrentMerchantCode O (merchantCode sel.Resource) fs).2)) ∧
      (∀ sel e, finalModel.selected = some sel → sel.Resource.Type_ ≠ "organization" →
        sel.Resource.ID ≠ "" → (SetCurrentMerchantCode O sel.Resource.ID fs).1 = some e →
        setContext O env fs =
          (⟨some ("save merchant context: " ++ e),
            [Message.Notify "Fetching your memberships..."]⟩,
            (SetCurrentMerchantCode O sel.Resource.ID fs).2)) ∧
      (finalModel.selected = none →
        setContext O env fs =
          (⟨none, [Message.Notify "Fetching your memberships...",
                   Message.Warn "No merchant selected."]⟩, fs)) ∧
      ((¬ ∃ sel, finalModel.selected = some sel ∧ sel.Resource.Type_ ≠ "organization" ∧
          sel.Resource.ID ≠ "") → (setContext O env fs).2 = fs)) := by
  constructor
  · intro h0
    subst h0
    simp only [setContext, happ, hlist]
    rfl
  · intro finalModel hne hrun
    obtain ⟨f1, f2, f3, f4, f5⟩ := setContext_final O env fs items finalModel happ hlist hne hrun
    refine ⟨⟨?_, ?_⟩, ?_, f4, f1, ?_⟩
    · rintro ⟨v, name, fs1, _, hres⟩
      cases hsel : finalModel.selected with
      | none =>
        rw [f1 hsel] at hres
        simp at hres
      | some sel =>
        by_cases horg : sel.Resource.Type_ = "organization"
        · rw [f2 sel hsel horg] at hres
          simp at hres
        · by_cases hid : sel.Resource.ID = ""
          · rw [f3 sel hsel horg hid] at hres
            simp at hres
          · cases hw : (SetCurrentMerchantCode O sel.Resource.ID fs).1 with
            | some e =>
              rw [f4 sel e hsel horg hid hw] at hres
              simp at hres
            | none => exact ⟨sel, rfl, horg, hid, hw⟩
    · rintro ⟨sel, hsel, horg, hid, hw⟩
      refine ⟨sel.Resource.ID, sel.Resource.Name, (SetCurrentMerchantCode O sel.Resource.ID fs).2,
        ?_, f5 sel hsel horg hid hw⟩
      rw [← hw]
    · intro sel hsel horg hid hcode hw
      rw [hcode]
      exact f5 sel hsel horg hid hw
    · intro hno
      cases hsel : finalModel.selected with
      | none => rw [f1 hsel]
      | some sel =>
        by_cases horg : sel.Resource.Type_ = "organization"
        · rw [f2 sel hsel horg]
        · by_cases hid : sel.Resource.ID = ""
          · rw [f3 sel hsel horg hid]
          · exact absurd ⟨sel, hsel, horg, hid⟩ hno

end Properties

/-! ### Currencies -/

theorem lookup_diag (l : List String) (k : String) :
    (l.map fun c => (c, c)).lookup k = if k ∈ l then some k else none := by
  induction l with
  | nil => rfl
  | cons a l ih =>
    simp only [List.map_cons, List.lookup_cons, List.mem_cons]
    by_cases h : k = a
    · subst h
      simp
    · have hb : (k == a) = false := by simpa using h
      rw [hb]
      simp only [ih, h, false_or]

theorem codeToCurrency_eq : codeToCurrency = Supported.map fun c => (c, c) := by
  rfl

theorem Parse_eq (ToUpper : String → String) (s : String) :
    Parse ToUpper s =
      if TrimSpace (ToUpper s) ∈ Supported then Except.ok (TrimSpace (ToUpper s))
      else Except.error ⟨s, Supported⟩ := by
  unfold Parse
  simp only [codeToCurrency_eq, lookup_diag]
  split_ifs <;> rfl

theorem supported_have_info :
    ∀ code ∈ Supported,
      ((codeToCurrency.lookup code).bind fun c => infoByCurrency.lookup c).isSome = true := by
  decide

/-- C30. Currency parsing agrees with the advertised list: for every string `s`,
`Parse(s)` succeeds if and only if the upper-cased, whitespace-trimmed `s` is one of the
codes returned by `Supported()`; on success `Code` of the result equals that normalized
code; and every supported code has an entry in the formatting table used by `Format`. -/
theorem parse_agrees_with_supported (ToUpper : String → String) (s : String) :
    ((∃ c, Parse ToUpper s = Except.ok c) ↔ TrimSpace (ToUpper s) ∈ Supported) ∧
    (∀ c, Parse ToUpper s = Except.ok c → Code c = TrimSpace (ToUpper s)) ∧
    (∀ code ∈ Supported, ∃ c info,
      codeToCurrency.lookup code = some c ∧ infoByCurrency.lookup c = some info) := by
  refine ⟨?_, ?_, ?_⟩
  · rw [Parse_eq]
    constructor
    · rintro ⟨c, h⟩
      by_contra hn
      rw [if_neg hn] at h
      exact Except.noConfusion h
    · intro h
      exact ⟨_, if_pos h⟩
  · intro c h
    rw [Parse_eq] at h
    by_cases hm : TrimSpace (ToUpper s) ∈ Supported
    · rw [if_pos hm] at h
      injection h with h
      exact h.symm
    · rw [if_neg hm] at h
      exact Except.noConfusion h
  · intro code hcode
    have h := supported_have_info code hcode
    cases h1 : codeToCurrency.lookup code with
    | none => rw [h1] at h; exact absurd h (by simp)
    | some c =>
      rw [h1] at h
      cases h2 : infoByCurrency.lookup c with
      | none => simp [h2] at h
      | some info => exact ⟨c, info, rfl, h2⟩

/-! ### Minor units -/

theorem roundHalfAway_intCast (n : Int) : roundHalfAway (n : ℚ) = n := by
  unfold roundHalfAway
  split_ifs
  · rw [Int.floor_eq_iff]
    constructor <;> linarith
  · rw [Int.ceil_eq_iff]
    constructor <;> linarith

/-- The value `ToMinorUnits` computes for a parsed amount, before the conversion to
`int64`. -/
theorem scaled_val {D : Type} (L : DecimalLib D) (hL : L.Lawful) (d : D) (u : Int) :
    L.val (L.Round (L.Mul d (L.Shift (L.New 1 0) u)) 0) =
      (roundHalfAway (L.val d * (10 : ℚ) ^ u) : ℚ) := by
  rw [hL.val_Round, hL.val_Mul, hL.val_Shift, hL.val_New]
  simp

/-- C26. `ToMinorUnits` converts a decimal-string amount into its minor units: for every
string that parses as a decimal `d` and every `minorUnit` `u` such that the result fits in
an `int64`, it returns `d * 10^u` rounded to the nearest integer, ties away from zero, with
no error; it is exact whenever `d * 10^u` is an integer (`d` has at most `u` fractional
digits); and it returns an error if and only if the string is not a valid decimal.  The
decimal library is any library with the documented arithmetic (`Lawful`). -/
theorem ToMinorUnits_spec {D : Type} (L : DecimalLib D) (hL : L.Lawful) (amount : String)
    (u : Int) :
    (∀ d, L.NewFromString amount = Except.ok d →
      -2 ^ 63 ≤ roundHalfAway (L.val d * (10 : ℚ) ^ u) →
      roundHalfAway (L.val d * (10 : ℚ) ^ u) < 2 ^ 63 →
      ToMinorUnits L amount u = Except.ok (roundHalfAway (L.val d * (10 : ℚ) ^ u))) ∧
    (∀ d (n : Int), L.NewFromString amount = Except.ok d →
      L.val d * (10 : ℚ) ^ u = (n : ℚ) → -2 ^ 63 ≤ n → n < 2 ^ 63 →
      ToMinorUnits L amount u = Except.ok n) ∧
    ((∃ e, ToMinorUnits L amount u = Except.error e) ↔
      ∃ e, L.NewFromString amount = Except.error e) := by
  have main : ∀ d, L.NewFromString amount = Except.ok d →
      -2 ^ 63 ≤ roundHalfAway (L.val d * (10 : ℚ) ^ u) →
      roundHalfAway (L.val d * (10 : ℚ) ^ u) < 2 ^ 63 →
      ToMinorUnits L amount u = Except.ok (roundHalfAway (L.val d * (10 : ℚ) ^ u)) := by
    intro d hd hlo hhi
    simp only [ToMinorUnits, hd]
    rw [hL.IntPart_val _ _ (scaled_val L hL d u) hlo hhi]
  refine ⟨main, ?_, ?_⟩
  · intro d n hd hn hlo hhi
    have hr : roundHalfAway (L.val d * (10 : ℚ) ^ u) = n := by
      rw [hn, roundHalfAway_intCast]
    have := main d hd (by rw [hr]; exact hlo) (by rw [hr]; exact hhi)
    rw [hr] at this
    exact this
  · cases hd : L.NewFromString amount with
    | error e =>
      simp only [ToMinorUnits, hd]
      exact ⟨fun _ => ⟨e, rfl⟩, fun _ => ⟨⟨amount, e⟩, rfl⟩⟩
    | ok d =>
      simp only [ToMinorUnits, hd]
      constructor
      · rintro ⟨e, h⟩; exact Except.noConfusion h
      · rintro ⟨e, h⟩; exact Except.noConfusion h

theorem ratDecimal_lawful : ratDecimal.Lawful where
  val_New _ _ := rfl
  val_Shift _ _ := rfl
  val_Mul _ _ := rfl
  val_Round d := by simp [ratDecimal]
  IntPart_val d n h _ _ := by
    have hd : d = (n : ℚ) := h
    subst hd
    show Int.tdiv ((n : ℚ).num) ((n : ℚ).den) = n
    rw [Rat.num_intCast, Rat.den_intCast]
    simp

/-! ### Concrete instances -/

/-- Instance of `cursor_bounds_invariant`: the state after pressing `down` on the root list
`[org1, m1]`. -/
theorem cursor_bounds_invariant_witness :
    [org1, m1] ≠ [] ∧ Reachable lineInput emptyInput [org1, m1] atMerchant ∧
    (atMerchant.displayed ≠ [] →
      0 ≤ atMerchant.cursor ∧ atMerchant.cursor < (atMerchant.displayed.length : Int)) ∧
    (atMerchant.displayed = [] → atMerchant.cursor = 0) :=
  ⟨by simp, Reachable.step (Msg.KeyMsg "down") Reachable.init (by rfl),
   cursor_bounds_invariant lineInput emptyInput [org1, m1] atMerchant (by simp)
    (Reachable.step (Msg.KeyMsg "down") Reachable.init (by rfl))⟩

/-- Instance of `enter_selects_merchant`: enter on `m1`. -/
theorem enter_selects_merchant_witness :
    atMerchant.searching = false ∧ index atMerchant.displayed atMerchant.cursor = some m1 ∧
    m1.Resource.Type_ ≠ "organization" ∧
    Update lineInput atMerchant (Msg.KeyMsg "enter") =
      some ({ atMerchant with selected := some m1 }, Cmd.Quit) :=
  ⟨rfl, rfl, by decide,
   enter_selects_merchant lineInput atMerchant m1 rfl rfl (by decide)⟩

/-- Instance of `enter_drills_into_organization`: enter on `org1` at the root. -/
theorem enter_drills_into_organization_witness :
    rootModel.searching = false ∧ index rootModel.displayed rootModel.cursor = some org1 ∧
    org1.Resource.Type_ = "organization" ∧
    Update lineInput rootModel (Msg.KeyMsg "enter") =
      some ({ rootModel with
              navigationStack := [rootModel.currentLevel]
              currentLevel :=
                { memberships := [], parentID := "org1",
                  parentType := "organization", parentName := "Acme" }
              displayed := []
              cursor := 0
              loading := true },
            Cmd.searchMemberships "" "org1" "organization") :=
  ⟨rfl, rfl, rfl, (enter_drills_into_organization lineInput).1 rootModel org1 rfl rfl rfl⟩

/-- Instance of `debounce_idempotent`: the text `abc` was already sent. -/
theorem debounce_idempotent_witness :
    TrimSpace (lineInput.Value sentModel.searchInput) = sentModel.lastSearchQuery ∧
    ∃ mA mB : model LineInput,
      Update lineInput sentModel Msg.searchDebounceMsg = some (mA, Cmd.nil) ∧
      Update lineInput mA Msg.searchDebounceMsg = some (mB, Cmd.nil) ∧
      mB.lastSearchQuery = "abc" ∧ mB.loading = false ∧ mB.displayed = [org1, m1] ∧
      mB.cursor = 0 := by
  obtain ⟨mA, mB, h1, h2, _, _, h5, h6, h7, h8, _⟩ :=
    (debounce_idempotent lineInput).1 sentModel (by decide)
  exact ⟨by decide, mA, mB, h1, h2, h5, h6, h7, h8⟩

/-- Instance of `debounce_coalescing`: typing `a`, `b`, `c` at the root in search mode, then
the three debounce firings. -/
theorem debounce_coalescing_witness :
    searchingModel.searching = true ∧ searchingModel.searchPending = false ∧
    queryChanging lineInput searchingModel.searchInput ["a", "b", "c"] = true ∧
    ∃ mK csK mD csD,
      runAll lineInput searchingModel (["a", "b", "c"].map Msg.KeyMsg) = some (mK, csK) ∧
      runAll lineInput mK (List.replicate 3 Msg.searchDebounceMsg) = some (mD, csD) ∧
      csD = [Cmd.searchMemberships "abc" "" "", Cmd.nil, Cmd.nil] ∧
      fetchCount (csK ++ csD) = 1 := by
  obtain ⟨mK, csK, mD, csD, h1, _, h3, _, h5, _⟩ :=
    debounce_coalescing lineInput searchingModel ["a", "b", "c"] rfl rfl (by simp) (by decide)
  exact ⟨rfl, rfl, by decide, mK, csK, mD, csD, h1, h3, (h5 (by decide)).1, (h5 (by decide)).2⟩

/-- C2 (the code at the failing input). On the root list `[org1, m1]`: press `/`, type
`shop`, let the four debounce timers fire (one fetch, with query `shop`), receive the
result `[m1]`, press escape.  `lastSearchQuery` is reset to the empty string, but
`displayed` is `[m1]`, the search result, not the list `[org1, m1]` shown before the
search. -/
theorem escape_after_search_keeps_results :
    ∃ m cs,
      runAll lineInput rootModel
        [Msg.KeyMsg "/", Msg.KeyMsg "s", Msg.KeyMsg "h", Msg.KeyMsg "o", Msg.KeyMsg "p",
         Msg.searchDebounceMsg, Msg.searchDebounceMsg, Msg.searchDebounceMsg,
         Msg.searchDebounceMsg, Msg.searchResultMsg [m1] none, Msg.KeyMsg "esc"] =
        some (m, cs) ∧
      cs = [Cmd.widget 0, Cmd.batchDebounce none, Cmd.batchDebounce none,
            Cmd.batchDebounce none, Cmd.batchDebounce none,
            Cmd.searchMemberships "shop" "" "", Cmd.nil, Cmd.nil, Cmd.nil, Cmd.nil, Cmd.nil] ∧
      rootModel.displayed = [org1, m1] ∧
      m.displayed = [m1] ∧ m.displayed ≠ rootModel.displayed ∧
      m.currentLevel.memberships = [m1] ∧
      m.lastSearchQuery = "" ∧ m.searching = false :=
  ⟨_, _, rfl, rfl, rfl, rfl, by decide, rfl, rfl, rfl⟩

/-! ### Concrete instances: error, selection, keys -/

/-- Instance of `error_does_not_gate_update`: the quit key on `errRoot`. -/
theorem error_does_not_gate_update_witness :
    errRoot.err = some "boom" ∧
    Update lineInput errRoot (Msg.KeyMsg "q") = some (errRoot, Cmd.Quit) :=
  ⟨rfl, (error_does_not_gate_update lineInput errRoot "boom" rfl).1 "q" (Or.inr rfl)⟩

/-- C11 (counterexample). The state `errRoot` is reached from the root list by enter, a
failed fetch completion and escape, and has the fatal error set; there the enter key
changes the state and issues a fetch.  So it is not true that every message other than
the quit keys leaves a state with an error unchanged and issues no command. -/
theorem error_state_still_handles_keys :
    runAll lineInput rootModel
      [Msg.KeyMsg "enter", Msg.searchResultMsg [] (some "boom"), Msg.KeyMsg "esc"] =
      some (errRoot, [Cmd.searchMemberships "" "org1" "organization", Cmd.nil, Cmd.nil]) ∧
    errRoot.err = some "boom" ∧
    Update lineInput errRoot (Msg.KeyMsg "enter") =
      some ({ drilled with err := some "boom" },
        Cmd.searchMemberships "" "org1" "organization") ∧
    ¬ (∀ (m : model LineInput) (msg : Msg), m.err ≠ none →
        msg ≠ Msg.KeyMsg "ctrl+c" → msg ≠ Msg.KeyMsg "q" →
        Update lineInput m msg = some (m, Cmd.nil)) := by
  refine ⟨rfl, rfl, rfl, fun h => ?_⟩
  have h1 := h errRoot (Msg.KeyMsg "enter") (by simp [errRoot]) (by decide) (by decide)
  have h2 : Update lineInput errRoot (Msg.KeyMsg "enter") =
      some ({ drilled with err := some "boom" },
        Cmd.searchMemberships "" "org1" "organization") := rfl
  rw [h2] at h1
  simp only [Option.some.injEq, Prod.mk.injEq] at h1
  exact Cmd.noConfusion h1.2

/-- Instance of `selected_stays_set`: after `m1` was selected on `[m1, m2]`, the keys down
and enter. -/
theorem selected_stays_set_witness :
    ({ twoMerchants with selected := some m1 } : model LineInput).selected = some m1 ∧
    m1.Resource.Type_ ≠ "organization" ∧
    ∃ it1, ({ twoMerchants with selected := some m2, cursor := 1 } : model LineInput).selected
        = some it1 ∧ it1.Resource.Type_ ≠ "organization" :=
  ⟨rfl, by decide,
   selected_stays_set lineInput { twoMerchants with selected := some m1 } m1 rfl (by decide)
    [Msg.KeyMsg "down", Msg.KeyMsg "enter"]
    { twoMerchants with selected := some m2, cursor := 1 } [Cmd.nil, Cmd.Quit] rfl⟩

/-- C12 (counterexample). On the list `[m1, m2]`, enter selects `m1`; the messages down
and enter that follow move the cursor and replace the selection by `m2`.  So a state with
`selected` set is still changed by later messages, `selected` included. -/
theorem selection_is_not_terminal :
    ∃ mA mB : model LineInput,
      Update lineInput twoMerchants (Msg.KeyMsg "enter") = some (mA, Cmd.Quit) ∧
      mA.selected = some m1 ∧ m1.Resource.Type_ ≠ "organization" ∧
      runAll lineInput mA [Msg.KeyMsg "down", Msg.KeyMsg "enter"] =
        some (mB, [Cmd.nil, Cmd.Quit]) ∧
      mB.selected = some m2 ∧ mB.selected ≠ mA.selected ∧ mB.cursor ≠ mA.cursor :=
  ⟨_, _, rfl, rfl, by decide, rfl, rfl, by decide, by decide⟩

/-- Instance of `selection_outcome_reachable`: the state after `down` on `[org1, m1]`. -/
theorem selection_outcome_reachable_witness :
    Reachable lineInput emptyInput [org1, m1] atMerchant ∧
    (atMerchant.selected = none ∨
      ∃ it, atMerchant.selected = some it ∧ it.Resource.Type_ ≠ "organization") :=
  ⟨Reachable.step (Msg.KeyMsg "down") Reachable.init (by rfl),
   (selection_outcome_reachable lineInput emptyInput [org1, m1] atMerchant
    (Reachable.step (Msg.KeyMsg "down") Reachable.init (by rfl))).1⟩

/-- C13 (counterexample). A reachable state with both the fatal error and `selected` set:
from the root list `[org1, m1]`, enter (drill into `org1`), a failed fetch completion,
escape (back to the root), down, enter (select `m1`). -/
theorem error_and_selection_both_set :
    ∃ m : model LineInput,
      Reachable lineInput emptyInput [org1, m1] m ∧
      runAll lineInput rootModel
        [Msg.KeyMsg "enter", Msg.searchResultMsg [] (some "boom"), Msg.KeyMsg "esc",
         Msg.KeyMsg "down", Msg.KeyMsg "enter"] =
        some (m, [Cmd.searchMemberships "" "org1" "organization", Cmd.nil, Cmd.nil,
                  Cmd.nil, Cmd.Quit]) ∧
      m.err = some "boom" ∧ m.selected = some m1 ∧
      ¬ (m.err = none ∨ m.selected = none) := by
  refine ⟨{ errRoot with cursor := 1, selected := some m1 }, ?_, rfl, rfl, rfl, ?_⟩
  · exact Reachable_runAll lineInput emptyInput [org1, m1] rootModel
      [Msg.KeyMsg "enter", Msg.searchResultMsg [] (some "boom"), Msg.KeyMsg "esc",
       Msg.KeyMsg "down", Msg.KeyMsg "enter"] _ _ Reachable.init rfl
  · rintro (h | h)
    · exact Option.noConfusion h
    · exact Option.noConfusion h

/-- Instance of `debounce_step`: the text `abc` is typed and not yet sent. -/
theorem debounce_step_witness :
    typedModel.searchPending = true ∧
    TrimSpace (lineInput.Value typedModel.searchInput) ≠ typedModel.lastSearchQuery ∧
    ∃ m1 c, Update lineInput typedModel Msg.searchDebounceMsg = some (m1, c) ∧
      c = Cmd.searchMemberships "abc" "" "" := by
  obtain ⟨m1, c, hu, hiff, hfetch, _, _⟩ := debounce_step lineInput typedModel
  have hc : c.isFetch = true := hiff.2 ⟨rfl, by decide⟩
  exact ⟨rfl, by decide, m1, c, hu, (hfetch hc).2⟩

/-- C15 (the code at the failing input). In search mode at the root, the keys `a` and `b`
arm two timers.  The first firing, of the timer armed by `a` and superseded by `b`, finds
`searchPending` true and issues the fetch for `ab`.  After the key `c` the second firing,
of the timer armed by `b` and superseded by `c`, issues the fetch for `abc`, and the
firing of the timer armed by the latest keystroke does nothing. -/
theorem superseded_timer_fetches :
    ∃ m : model LineInput,
      runAll lineInput searchingModel
        [Msg.KeyMsg "a", Msg.KeyMsg "b", Msg.searchDebounceMsg, Msg.KeyMsg "c",
         Msg.searchDebounceMsg, Msg.searchDebounceMsg] =
        some (m, [Cmd.batchDebounce none, Cmd.batchDebounce none,
                  Cmd.searchMemberships "ab" "" "", Cmd.batchDebounce none,
                  Cmd.searchMemberships "abc" "" "", Cmd.nil]) ∧
      m.lastSearchQuery = "abc" ∧ m.searchPending = false :=
  ⟨_, rfl, rfl, rfl⟩

/-- Instance of `escape_pops_level`: escape in the level of `org1`. -/
theorem escape_pops_level_witness :
    drilled.searching = false ∧ drilled.navigationStack = [] ++ [rootModel.currentLevel] ∧
    Update lineInput drilled (Msg.KeyMsg "esc") =
      some ({ drilled with navigationStack := [], currentLevel := rootModel.currentLevel,
                           displayed := [org1, m1], cursor := 0 }, Cmd.nil) :=
  ⟨rfl, rfl, (escape_pops_level lineInput drilled rfl).2 [] rootModel.currentLevel rfl⟩

/-- Instance of `escape_clears_search`: escape with the text `abc` in the input. -/
theorem escape_clears_search_witness :
    sentModel.searching = true ∧
    (∀ t : LineInput, lineInput.Value (lineInput.SetValue t "") = "") ∧
    ∃ m1, Update lineInput sentModel (Msg.KeyMsg "esc") = some (m1, Cmd.nil) ∧
      lineInput.Value m1.searchInput = "" ∧ m1.lastSearchQuery = "" ∧
      m1.searching = false := by
  obtain ⟨m1, hu, hm, hv, _, _⟩ := escape_clears_search lineInput sentModel rfl (fun _ => rfl)
  refine ⟨rfl, fun _ => rfl, m1, hu, hv, ?_, ?_⟩
  · rw [hm]
  · rw [hm]

/-- Instance of `down_key_moves_cursor`: down on the root list moves the cursor to 1. -/
theorem down_key_moves_cursor_witness :
    rootModel.searching = false ∧
    ∃ m1, Update lineInput rootModel (Msg.KeyMsg "down") = some (m1, Cmd.nil) ∧
      m1 = atMerchant := by
  obtain ⟨m1, hu, hm, _, _⟩ :=
    down_key_moves_cursor lineInput rootModel "down" (Or.inl rfl) rfl
  exact ⟨rfl, m1, hu, hm.trans rfl⟩

/-- C18 (counterexample). After drilling into `org1` the list on display is empty and the
cursor is 0; the down key leaves the cursor at 0, while `min(len(displayed) - 1,
cursor + 1)` is `-1`. -/
theorem down_key_on_empty_list :
    drilled.searching = false ∧ drilled.displayed = [] ∧ drilled.cursor = 0 ∧
    Update lineInput rootModel (Msg.KeyMsg "enter") =
      some (drilled, Cmd.searchMemberships "" "org1" "organization") ∧
    Update lineInput drilled (Msg.KeyMsg "down") = some (drilled, Cmd.nil) ∧
    min ((drilled.displayed.length : Int) - 1) (drilled.cursor + 1) = -1 ∧
    drilled.cursor ≠ min ((drilled.displayed.length : Int) - 1) (drilled.cursor + 1) :=
  ⟨rfl, rfl, rfl, rfl, rfl, by decide, by decide⟩

/-- Instance of `quit_key_returns_quit`: `q` in search mode. -/
theorem quit_key_returns_quit_witness :
    Update lineInput searchingModel (Msg.KeyMsg "q") = some (searchingModel, Cmd.Quit) :=
  (quit_key_returns_quit lineInput searchingModel "q" (Or.inr rfl)).1

/-- C19 (counterexample). On `[org1, m1]`, after down and enter (which selects `m1`), the
key `q` returns the quit command and leaves `selected` set to `m1`: the quit key does not
unset `selected`. -/
theorem quit_key_keeps_selection :
    ∃ m : model LineInput,
      runAll lineInput rootModel [Msg.KeyMsg "down", Msg.KeyMsg "enter", Msg.KeyMsg "q"] =
        some (m, [Cmd.nil, Cmd.Quit, Cmd.Quit]) ∧
      m.selected = some m1 ∧ m.selected ≠ none :=
  ⟨_, rfl, rfl, by decide⟩

/-- Instance of `pop_resets_cursor`: drill into `org1` from index 1, one fetch completion,
escape. -/
theorem pop_resets_cursor_witness :
    atOrg.searching = false ∧ index atOrg.displayed atOrg.cursor = some org1 ∧
    org1.Resource.Type_ = "organization" ∧
    ∃ mD mF cs mP,
      Update lineInput atOrg (Msg.KeyMsg "enter") =
        some (mD, Cmd.searchMemberships "" "org1" "organization") ∧
      runAll lineInput mD [Msg.searchResultMsg [m2] none] = some (mF, cs) ∧
      Update lineInput mF (Msg.KeyMsg "esc") = some (mP, Cmd.nil) ∧
      mP.cursor = 0 ∧ mP.displayed = [m1, org1] := by
  obtain ⟨mD, mF, cs, mP, h1, h2, h3, h4, _, h6, _⟩ :=
    pop_resets_cursor lineInput atOrg org1 rfl rfl rfl [[m2]]
  exact ⟨rfl, rfl, rfl, mD, mF, cs, mP, h1, h2, h3, h4, h6⟩

/-- C20 (counterexample). On `[m1, org1]`: down puts the cursor on index 1, enter drills
into `org1`, escape pops back; the cursor is then 0, not 1. -/
theorem pop_does_not_restore_cursor :
    ∃ mC mP : model LineInput,
      Update lineInput orgSecond (Msg.KeyMsg "down") = some (mC, Cmd.nil) ∧
      mC.cursor = 1 ∧
      runAll lineInput mC [Msg.KeyMsg "enter", Msg.KeyMsg "esc"] =
        some (mP, [Cmd.searchMemberships "" "org1" "organization", Cmd.nil]) ∧
      mP.displayed = [m1, org1] ∧ mP.cursor = 0 ∧ mP.cursor ≠ mC.cursor :=
  ⟨_, _, rfl, rfl, rfl, rfl, rfl, by decide⟩

/-! ### Concrete instances: fetches, invariants of the navigation path -/

/-- C21 (the code at the failing input). On the root list `[org1, m1]`: press `/`, type
`acme`, let the four debounce timers fire (one fetch, query `acme`), receive the result
`[org1]`, press enter to leave search mode and enter again to drill into `org1`.  The last
command is the fetch with the empty query for `org1`, and `lastSearchQuery` is still
`acme`, not the query of that fetch. -/
theorem drill_down_keeps_last_query :
    ∃ m : model LineInput,
      runAll lineInput rootModel
        [Msg.KeyMsg "/", Msg.KeyMsg "a", Msg.KeyMsg "c", Msg.KeyMsg "m", Msg.KeyMsg "e",
         Msg.searchDebounceMsg, Msg.searchDebounceMsg, Msg.searchDebounceMsg,
         Msg.searchDebounceMsg, Msg.searchResultMsg [org1] none,
         Msg.KeyMsg "enter", Msg.KeyMsg "enter"] =
        some (m, [Cmd.widget 0, Cmd.batchDebounce none, Cmd.batchDebounce none,
                  Cmd.batchDebounce none, Cmd.batchDebounce none,
                  Cmd.searchMemberships "acme" "" "", Cmd.nil, Cmd.nil, Cmd.nil, Cmd.nil,
                  Cmd.nil, Cmd.searchMemberships "" "org1" "organization"]) ∧
      m.currentLevel.parentID = "org1" ∧ m.loading = true ∧
      m.lastSearchQuery = "acme" ∧ m.lastSearchQuery ≠ "" :=
  ⟨_, rfl, rfl, rfl, rfl, by decide⟩

/-- Instance of `step_adds_at_most_one_fetch`: the first drill-down from the root. -/
theorem step_adds_at_most_one_fetch_witness :
    Engine.step lineInput ⟨rootModel, []⟩ (Event.input (Msg.KeyMsg "enter")) =
      some ⟨drilled, [⟨"", "org1", "organization"⟩]⟩ ∧
    drilled.loading = true :=
  ⟨rfl, (step_adds_at_most_one_fetch lineInput ⟨rootModel, []⟩
    ⟨drilled, [⟨"", "org1", "organization"⟩]⟩ (Event.input (Msg.KeyMsg "enter")) rfl).2.1
      ⟨"", "org1", "organization"⟩ rfl⟩

/-- C22 (counterexample). From the root list `[org1, m1]` with nothing outstanding: enter
(drill into `org1`), escape (back), enter (drill into `org1` again), with no completion in
between.  `loading` is true and the triple `("", "org1", "organization")` is outstanding
twice. -/
theorem same_fetch_outstanding_twice :
    ∃ s : Engine LineInput,
      Engine.run lineInput ⟨rootModel, []⟩
        [Event.input (Msg.KeyMsg "enter"), Event.input (Msg.KeyMsg "esc"),
         Event.input (Msg.KeyMsg "enter")] = some s ∧
      s.m.loading = true ∧
      s.outstanding = [⟨"", "org1", "organization"⟩, ⟨"", "org1", "organization"⟩] ∧
      s.outstanding.count ⟨"", "org1", "organization"⟩ = 2 :=
  ⟨_, rfl, rfl, rfl, by decide⟩

/-- Instance of `displayed_mirrors_level`: the state after enter on `org1`. -/
theorem displayed_mirrors_level_witness :
    Reachable lineInput emptyInput [org1, m1] drilled ∧
    drilled.displayed = drilled.currentLevel.memberships :=
  ⟨Reachable.step (Msg.KeyMsg "enter") Reachable.init (by rfl),
   displayed_mirrors_level lineInput emptyInput [org1, m1] drilled
    (Reachable.step (Msg.KeyMsg "enter") Reachable.init (by rfl))⟩

/-- Instance of `navigation_stack_shape`: the state after enter on `org1`. -/
theorem navigation_stack_shape_witness :
    Reachable lineInput emptyInput [org1, m1] drilled ∧
    drilled.navigationStack = [rootModel.currentLevel] ∧
    rootModel.currentLevel.parentID = "" ∧ rootModel.currentLevel.parentType = "" ∧
    drilled.currentLevel.parentType = "organization" := by
  have hr : Reachable lineInput emptyInput [org1, m1] drilled :=
    Reachable.step (Msg.KeyMsg "enter") Reachable.init (by rfl)
  have h := (navigation_stack_shape lineInput emptyInput [org1, m1] drilled hr).2
    rootModel.currentLevel [] rfl
  exact ⟨hr, rfl, h.1, h.2.1, h.2.2.2⟩

/-- Instance of `no_fetch_after_escape`: escape with `abc` in the input and a timer
pending, then two debounce firings. -/
theorem no_fetch_after_escape_witness :
    sentModel.searching = true ∧ sentModel.searchPending = true ∧
    ∃ mE mD cs,
      Update lineInput sentModel (Msg.KeyMsg "esc") = some (mE, Cmd.nil) ∧
      runAll lineInput mE [Msg.searchDebounceMsg, Msg.searchDebounceMsg] = some (mD, cs) ∧
      cs = [Cmd.nil, Cmd.nil] ∧ mD.lastSearchQuery = "" := by
  obtain ⟨mE, mD, cs, h1, h2, h3, _, _, h6⟩ :=
    no_fetch_after_escape lineInput sentModel 2 rfl (fun _ => rfl)
  exact ⟨rfl, rfl, mE, mD, cs, h1, h2, h3, h6⟩

/-! ### Concrete instances: the renderer -/

/-- Instance of `viewport_window`: twelve rows with the cursor on the last one; the frame
shows rows 3 to 12 and marks `Shop 11`. -/
theorem viewport_window_witness :
    0 ≤ twelveShops.cursor ∧
    twelveShops.cursor < (twelveShops.displayed.length : Int) ∧
    window twelveShops.displayed.length twelveShops.cursor = (2, 12) ∧
    twelveShops.err = none ∧
    View plainRenderer twelveShops =
      some ("Select a merchant or organization:\n\n" ++
        "  Shop 2 (-)\n  Shop 3 (-)\n  Shop 4 (-)\n  Shop 5 (-)\n  Shop 6 (-)\n" ++
        "  Shop 7 (-)\n  Shop 8 (-)\n  Shop 9 (-)\n  Shop 10 (-)\n> Shop 11 (-)\n" ++
        "\n(Showing 3-12 of 12)\n\n" ++
        "↑/↓ or j/k: navigate | /: search | enter: select | ctrl+c/q: quit") := by
  obtain ⟨item, frame, _, _, hview, hframe, _⟩ :=
    (viewport_window plainRenderer twelveShops 2 12 (by decide) (by decide) (by decide)).2.2.2
      rfl
  refine ⟨by decide, by decide, by decide, rfl, ?_⟩
  rw [hview, hframe]
  rfl

/-- C23 (counterexample). Eleven rows with the cursor on index 0 and a fatal error stored:
the window would be rows 1 to 10, but `View` returns the error frame, which does not
contain `(Showing 1-10 of 11)`. -/
theorem error_frame_has_no_counts :
    errEleven.displayed.length = 11 ∧ errEleven.cursor = 0 ∧
    window 11 0 = (0, 10) ∧
    showingText (0 + 1) 10 11 = "(Showing 1-10 of 11)" ∧
    View plainRenderer errEleven = some "Error: boom\n" ∧
    ¬ Contains "Error: boom\n" "(Showing 1-10 of 11)" := by
  refine ⟨by decide, rfl, by decide, by decide, rfl, ?_⟩
  unfold Contains
  decide

/-- Instance of `empty_state_rendering`: right after the drill-down into `org1` the frame
shows the loading line. -/
theorem empty_state_rendering_witness :
    drilled.err = none ∧ drilled.displayed = [] ∧ drilled.loading = true ∧
    ∃ frame, View plainRenderer drilled = some frame ∧ Contains frame "Loading..." := by
  obtain ⟨frame, h1, _, _, _, h5, _⟩ := empty_state_rendering plainRenderer drilled rfl rfl
  exact ⟨rfl, rfl, rfl, frame, h1, h5 rfl⟩

/-- C24 (counterexample). Inside the organization named `Loading...`, after its fetch
completed with no items: no fatal error, an empty list, `loading` false, and the frame
contains `Loading...` (in the title) next to `No items found.`. -/
theorem loading_text_without_loading :
    runAll lineInput (initialModel emptyInput [orgLoading])
      [Msg.KeyMsg "enter", Msg.searchResultMsg [] none] =
      some (insideEmptyOrg, [Cmd.searchMemberships "" "org2" "organization", Cmd.nil]) ∧
    insideEmptyOrg.err = none ∧ insideEmptyOrg.displayed = [] ∧
    insideEmptyOrg.loading = false ∧
    View plainRenderer insideEmptyOrg =
      some ("Select a merchant from: Loading...\n\nNo items found.\n\n\n" ++
        "↑/↓ or j/k: navigate | /: search | enter: select | esc: back | ctrl+c/q: quit") ∧
    Contains ("Select a merchant from: Loading...\n\nNo items found.\n\n\n" ++
        "↑/↓ or j/k: navigate | /: search | enter: select | esc: back | ctrl+c/q: quit")
      "Loading..." ∧
    ¬ (∀ frame, View plainRenderer insideEmptyOrg = some frame →
        (Contains frame "Loading..." ↔ insideEmptyOrg.loading = true)) := by
  have hc : Contains ("Select a merchant from: Loading...\n\nNo items found.\n\n\n" ++
      "↑/↓ or j/k: navigate | /: search | enter: select | esc: back | ctrl+c/q: quit")
      "Loading..." :=
    ⟨"Select a merchant from: ".data,
     ("\n\nNo items found.\n\n\n" ++
       "↑/↓ or j/k: navigate | /: search | enter: select | esc: back | ctrl+c/q: quit").data,
     by decide⟩
  refine ⟨rfl, rfl, rfl, rfl, rfl, hc, fun h => ?_⟩
  have h1 := (h _ rfl).1 hc
  exact Bool.noConfusion h1

/-! ### Concrete instances: the caller and the currencies -/

/-- Instance of `setContext_boundary`: the user picks `shop` from `[org1, shop]` on a
writable host; the configuration file then holds `MC123` and reading it back gives
`MC123`. -/
theorem setContext_boundary_witness :
    pickingEnv.appContext = none ∧ pickingEnv.list = Except.ok [org1, shop] ∧
    merchantCode shop.Resource = "MC123" ∧
    setContext (memHost true) pickingEnv [] =
      (⟨none, [Message.Notify "Fetching your memberships...",
              Message.Success "Merchant context set to: Shop (MC123)"]⟩,
        [("/home/u/.config/sumup/sumup.json", "MC123")]) ∧
    GetCurrentMerchantCode (memHost true) [("/home/u/.config/sumup/sumup.json", "MC123")] =
      Except.ok "MC123" :=
  ⟨rfl, rfl, rfl,
    ((setContext_boundary (memHost true) pickingEnv [] [org1, shop] rfl rfl).2
      { initialModel emptyInput [org1, shop] with cursor := 1, selected := some shop }
      (by simp) rfl).2.1 shop rfl (by decide) (by decide) rfl rfl,
    rfl⟩

/-- C25 (counterexample). The user picks `shop`, a merchant with a non-empty resource id,
but the write to the configuration fails with `disk full`: `setContext` returns the error,
the file system is left without a configuration file, the stored merchant code is still
empty, and no merchant code was persisted. -/
theorem failed_write_persists_nothing :
    pickingEnv.run (initialModel emptyInput [org1, shop]) =
      Except.ok { initialModel emptyInput [org1, shop] with cursor := 1, selected := some shop } ∧
    shop.Resource.Type_ ≠ "organization" ∧ shop.Resource.ID ≠ "" ∧
    setContext (memHost false) pickingEnv [] =
      (⟨some "save merchant context: write config file: disk full",
        [Message.Notify "Fetching your memberships..."]⟩, []) ∧
    GetCurrentMerchantCode (memHost false) [] = Except.ok "" ∧
    ¬ ∃ v name fs1, SetCurrentMerchantCode (memHost false) v [] = (none, fs1) ∧
        setContext (memHost false) pickingEnv [] =
          (⟨none, [Message.Notify "Fetching your memberships...",
                   Message.Success ("Merchant context set to: " ++ name ++ " (" ++ v ++
                     ")")]⟩, fs1) := by
  have hres : setContext (memHost false) pickingEnv [] =
      (⟨some "save merchant context: write config file: disk full",
        [Message.Notify "Fetching your memberships..."]⟩, []) := by decide
  refine ⟨rfl, by decide, by decide, hres, rfl, ?_⟩
  rintro ⟨v, name, fs1, _, h⟩
  rw [hres] at h
  simp at h

/-- Instance of `parse_agrees_with_supported`: ` eur ` parses, and the code of the result
is `EUR`. -/
theorem parse_agrees_with_supported_witness :
    ∃ c, Parse asciiUpper " eur " = Except.ok c ∧ Code c = "EUR" := by
  have hmem : TrimSpace (asciiUpper " eur ") ∈ Supported := by decide
  obtain ⟨c, hc⟩ := (parse_agrees_with_supported asciiUpper " eur ").1.2 hmem
  exact ⟨c, hc,
    ((parse_agrees_with_supported asciiUpper " eur ").2.1 c hc).trans (by decide)⟩

/-- Instances of `ToMinorUnits_spec` over the rationals: `12.34` with two minor-unit
digits is exactly `1234`; `0.125` and `-0.125` are ties and round away from zero; `1.2.3`
is not a decimal and gives the error. -/
theorem ToMinorUnits_spec_witness :
    ratDecimal.Lawful ∧
    ratDecimal.NewFromString "12.34" = Except.ok ((1234 : ℚ) / (10 : ℚ) ^ 2) ∧
    ToMinorUnits ratDecimal "12.34" 2 = Except.ok 1234 ∧
    ToMinorUnits ratDecimal "0.125" 2 = Except.ok 13 ∧
    ToMinorUnits ratDecimal "-0.125" 2 = Except.ok (-13) ∧
    ∃ e, ToMinorUnits ratDecimal "1.2.3" 2 = Except.error e := by
  have p : ratDecimal.NewFromString "12.34" = Except.ok ((1234 : ℚ) / (10 : ℚ) ^ 2) := by
    simp [ratDecimal, digitsValue]
  have p1 : ratDecimal.NewFromString "0.125" = Except.ok ((125 : ℚ) / (10 : ℚ) ^ 3) := by
    simp [ratDecimal, digitsValue]
  have p2 : ratDecimal.NewFromString "-0.125" = Except.ok (-(125 : ℚ) / (10 : ℚ) ^ 3) := by
    simp [ratDecimal, digitsValue]
  have p3 : ratDecimal.NewFromString "1.2.3" = Except.error "not a decimal" := by
    simp [ratDecimal, digitsValue]
  have h1 : roundHalfAway ((125 : ℚ) / (10 : ℚ) ^ 3 * (10 : ℚ) ^ (2 : Int)) = 13 := by
    unfold roundHalfAway
    rw [if_pos (by norm_num), Int.floor_eq_iff]
    constructor <;> norm_num
  have h2 : roundHalfAway (-(125 : ℚ) / (10 : ℚ) ^ 3 * (10 : ℚ) ^ (2 : Int)) = -13 := by
    unfold roundHalfAway
    rw [if_neg (by norm_num), Int.ceil_eq_iff]
    constructor <;> norm_num
  have hval : ∀ d : ℚ, ratDecimal.val d = d := fun _ => rfl
  refine ⟨ratDecimal_lawful, p, ?_, ?_, ?_, ?_⟩
  · exact (ToMinorUnits_spec ratDecimal ratDecimal_lawful "12.34" 2).2.1 _ 1234 p
      (by norm_num [ratDecimal]) (by norm_num) (by norm_num)
  · have h := (ToMinorUnits_spec ratDecimal ratDecimal_lawful "0.125" 2).1 _ p1
    simp only [hval, h1] at h
    exact h (by norm_num) (by norm_num)
  · have h := (ToMinorUnits_spec ratDecimal ratDecimal_lawful "-0.125" 2).1 _ p2
    simp only [hval, h2] at h
    exact h (by norm_num) (by norm_num)
  · exact (ToMinorUnits_spec ratDecimal ratDecimal_lawful "1.2.3" 2).2.2.2 ⟨_, p3⟩

end SumupCli
